import Mathlib

/-!
Verification of the watch-detect-dedupe-process-recover pipeline of the
image-privacy-guardian repository, shallowly embedded from
`monitoring_manager.py` and `sanitizer_engine.py`.

Paths are modelled as `List Char` (POSIX separator `'/'`), file contents as
`List Nat` (byte lists), and the filesystem / hash ledger as association
lists keyed by path.  The MD5 digest of `calculate_file_hash` is abstracted
as a parameter `hashFn`; every theorem is stated for an arbitrary digest
function, with hash inequality supplied as a hypothesis where the source
relies on collision resistance.
-/

namespace Guardian

/-- Paths are character lists (POSIX flavour: the only separator is `'/'`). -/
abbrev Path := List Char

/-- File contents are byte lists. -/
abbrev Bytes := List Nat

/-! ## Small path/string utilities mirroring the Python standard library -/

/-- Python `str.startswith`: `p` starts with `pre`. -/
def pyStartsWith (p pre : Path) : Bool :=
  p.take pre.length == pre

/-- Python `sub in s` (substring containment test). -/
def hasSubstr (pat : List Char) : List Char → Bool
  | [] => pat == []
  | c :: rest => (c :: rest).take pat.length == pat || hasSubstr pat rest

/-- Separator test for the POSIX model: only `'/'` separates components. -/
def isSep (c : Char) : Bool := c == '/'

/-- ASCII lower-casing of one character, as Python `str.lower` does per char. -/
def lowerChar (c : Char) : Char :=
  if 'A' ≤ c ∧ c ≤ 'Z' then Char.ofNat (c.toNat + 32) else c

/-- Python `str.lower` on a path (ASCII model). -/
def pyLower (p : List Char) : List Char := p.map lowerChar

/-- Embedding of `os.path.basename`: everything after the last separator. -/
def basenameOf (p : Path) : Path :=
  (p.reverse.takeWhile (fun c => !isSep c)).reverse

/-- Embedding of `os.path.dirname`: everything before the last separator (no separator:
empty result), as in `posixpath.dirname`. -/
def dirnameOf (p : Path) : Path :=
  ((p.reverse.dropWhile (fun c => !isSep c)).tail).reverse

/-- Embedding of `os.path.join a b` for a relative, non-empty second component
(the only way the repository calls it). -/
def pyJoin (a b : Path) : Path := a ++ '/' :: b

/-- Embedding of `str.rstrip(os.sep)`: strip trailing separators. -/
def rstripSep (p : Path) : Path :=
  (p.reverse.dropWhile isSep).reverse

/-! ## `os.path.splitext` (CPython `genericpath._splitext`)

Scanning the reversed path: the extension is the segment from the last dot
to the end, provided that dot comes after the last separator and some
non-dot character stands between the separator and the dot. -/

/-- Scanning a reversed basename fragment: is there a non-dot character
before the next separator?  This is CPython's leading-dot guard. -/
def hasNonDotBeforeSep : List Char → Bool
  | [] => false
  | c :: rest =>
    if isSep c then false
    else if c == '.' then hasNonDotBeforeSep rest
    else true

/-- Core of `splitext` on the reversed path: `acc` collects the characters
seen so far (in original order).  Returns the extension including its dot. -/
def extOfRevAux (acc : List Char) : List Char → Option (List Char)
  | [] => none
  | c :: rest =>
    if isSep c then none
    else if c == '.' then
      if hasNonDotBeforeSep rest then some ('.' :: acc) else none
    else extOfRevAux (c :: acc) rest

/-- The extension of a path (including the dot), or `none`. -/
def extOf (p : Path) : Option (List Char) :=
  extOfRevAux [] p.reverse

/-- Embedding of `os.path.splitext`: split a path into stem and extension. -/
def splitext (p : Path) : Path × Path :=
  match extOf p with
  | some e => (p.take (p.length - e.length), e)
  | none => (p, [])

/-! ## Association-list maps for the filesystem and the hash ledger -/

/-- Lookup in an association list (newest entry wins). -/
def assocGet {β : Type} (m : List (Path × β)) (k : Path) : Option β :=
  match m with
  | [] => none
  | (k', v) :: rest => if k' = k then some v else assocGet rest k

/-- Insert/overwrite a binding (cons-shadowing). -/
def assocSet {β : Type} (m : List (Path × β)) (k : Path) (v : β) : List (Path × β) :=
  (k, v) :: m

/-- Delete a binding (`os.remove`). -/
def assocDel {β : Type} (m : List (Path × β)) (k : Path) : List (Path × β) :=
  m.filter (fun e => decide (e.1 ≠ k))

/-- The keys of an association list: paths that exist on disk. -/
def keysOf {β : Type} (m : List (Path × β)) : List Path :=
  m.map (·.1)

theorem assocGet_set_eq {β : Type} (m : List (Path × β)) (k : Path) (v : β) :
    assocGet (assocSet m k v) k = some v := by
  simp [assocGet, assocSet]

theorem assocGet_set_ne {β : Type} (m : List (Path × β)) (k k' : Path) (v : β)
    (h : k' ≠ k) : assocGet (assocSet m k v) k' = assocGet m k' := by
  have : k ≠ k' := fun hc => h hc.symm
  simp [assocGet, assocSet, this]

theorem assocGet_del_eq {β : Type} (m : List (Path × β)) (k : Path) :
    assocGet (assocDel m k) k = none := by
  induction m with
  | nil => simp [assocGet, assocDel]
  | cons e rest ih =>
    by_cases he : e.1 = k
    · simpa [assocDel, he] using ih
    · cases e with
      | mk k' v => simp_all [assocDel, assocGet]

theorem assocGet_del_ne {β : Type} (m : List (Path × β)) (k k' : Path)
    (h : k' ≠ k) : assocGet (assocDel m k) k' = assocGet m k' := by
  induction m with
  | nil => simp [assocGet, assocDel]
  | cons e rest ih =>
    cases e with
    | mk k₀ v =>
      by_cases he : k₀ = k
      · subst he
        have : k₀ ≠ k' := fun hc => h hc.symm
        simp_all [assocDel, assocGet]
      · by_cases he' : k₀ = k'
        · subst he'
          simp_all [assocDel, assocGet]
        · simp_all [assocDel, assocGet]

theorem assocGet_eq_none_of_not_mem_keys {β : Type} (m : List (Path × β)) (k : Path)
    (h : k ∉ keysOf m) : assocGet m k = none := by
  induction m with
  | nil => rfl
  | cons e rest ih =>
    cases e with
    | mk k' v =>
      simp only [keysOf, List.map_cons, List.mem_cons] at h
      push_neg at h
      have h1 : k' ≠ k := fun hc => h.1 hc.symm
      have h2 : assocGet rest k = none := ih h.2
      simp [assocGet, h1, h2]

theorem mem_keys_of_assocGet_isSome {β : Type} (m : List (Path × β)) (k : Path)
    (h : (assocGet m k).isSome) : k ∈ keysOf m := by
  by_contra hc
  rw [assocGet_eq_none_of_not_mem_keys m k hc] at h
  simp at h

/-! ## FileClassifier: `MonitoringManager.is_image_file` and the path guards
of `ImageFileHandler.handle_file_event` (monitoring_manager.py 47-87, 616-634) -/

/-- Core of `pathlib.Path(p).suffix`: scan the reversed final component;
`acc` holds the characters after the candidate dot, in original order.
The suffix is returned (dot included) only when `0 < i < len(name) - 1`,
i.e. characters exist both before the dot (`rest ≠ []`) and after it
(`acc ≠ []`). -/
def suffixRevAux (acc : List Char) : List Char → List Char
  | [] => []
  | c :: rest =>
    if c == '.' then
      if acc ≠ [] ∧ rest ≠ [] then '.' :: acc else []
    else suffixRevAux (c :: acc) rest

/-- Embedding of `pathlib.Path(p).suffix`. -/
def pathlibSuffix (p : Path) : List Char :=
  suffixRevAux [] (p.reverse.takeWhile (fun c => !isSep c))

/-- The supported image formats of `MonitoringManager.supported_formats`
(monitoring_manager.py line 365). -/
def supportedFormats : List (List Char) :=
  [".jpg".toList, ".jpeg".toList, ".png".toList, ".bmp".toList,
   ".tiff".toList, ".tif".toList, ".webp".toList, ".heif".toList, ".heic".toList]

/-- ASCII decimal digit, the `\d` of the timestamp regex. -/
def isDigitCh (c : Char) : Bool := '0' ≤ c && c ≤ '9'

/-- Consume exactly `n` digits, returning the remainder on success. -/
def digitsRun : Nat → List Char → Option (List Char)
  | 0, l => some l
  | _ + 1, [] => none
  | n + 1, c :: rest => if isDigitCh c then digitsRun n rest else none

/-- Does the regex `_\d{8}_\d{6}` match at the head of the list? -/
def tsMatchAt (l : List Char) : Bool :=
  match l with
  | '_' :: rest =>
    match digitsRun 8 rest with
    | some ('_' :: rest2) => (digitsRun 6 rest2).isSome
    | _ => false
  | _ => false

/-- Embedding of `re.search(r"_\d{8}_\d{6}", s)`: the pattern matches at some position. -/
def hasTsPattern : List Char → Bool
  | [] => false
  | c :: rest => tsMatchAt (c :: rest) || hasTsPattern rest

/-- Embedding of `MonitoringManager.is_image_file` (monitoring_manager.py 616-634):
extension in the supported set, no timestamp-shaped infix in the filename,
no `_FAILED_` marker in the filename. -/
def isImageFile (p : Path) : Bool :=
  if !(supportedFormats.contains (pyLower (pathlibSuffix p))) then false
  else
    let filename := basenameOf p
    if hasTsPattern filename then false
    else if hasSubstr "_FAILED_".toList filename then false
    else true

/-- Python `len(name.split(sep)) > 3` reduces to counting occurrences of
the separator character: the split has `count + 1` parts. -/
def countCh (c : Char) (l : List Char) : Nat := l.count c

/-- The path-based guard sequence of `ImageFileHandler.handle_file_event`
(monitoring_manager.py lines 51-66): `is_image_file`, backup-folder
containment, the `_cleaned` / `_FAILED_` / `_ERROR_` / leading-tilde
markers, and the `_20`-timestamp heuristic of line 65.  The later guards
(session set, stability wait, existence, ledger) are stateful and are
modelled in the orchestrator below. -/
def eventPathGuardsAccept (backupFolder : Path) (p : Path) : Bool :=
  if !isImageFile p then false
  else if hasSubstr backupFolder p then false
  else
    let fileName := basenameOf p
    if hasSubstr "_cleaned".toList fileName || hasSubstr "_FAILED_".toList fileName
        || hasSubstr "_ERROR_".toList fileName || pyStartsWith fileName "~".toList then false
    else if hasSubstr "_20".toList fileName &&
        (hasSubstr "_FAILED_".toList fileName || decide (3 < countCh '_' fileName + 1)) then false
    else true

example : isImageFile "/pics/photo.png".toList = true := by decide
example : isImageFile "/pics/photo_cleaned.png".toList = true := by decide
example : isImageFile "/pics/photo_20240101_123456.png".toList = false := by decide
example : isImageFile "/pics/a_FAILED_x.png".toList = false := by decide
example : isImageFile "/pics/photo.txt".toList = false := by decide
example : isImageFile "/pics/photo.jpg.aegis_temp".toList = false := by decide
example : eventPathGuardsAccept "/bak".toList "/pics/photo_cleaned.png".toList = false := by
  decide
example : eventPathGuardsAccept "/bak".toList "/pics/photo.png".toList = true := by decide

/-- The temporary-file marker `".aegis_temp"` appended by
`ImageSanitizer.clean_image` (sanitizer_engine.py line 66). -/
def tempSuffix : Path := ['.', 'a', 'e', 'g', 'i', 's', '_', 't', 'e', 'm', 'p']

example : tempSuffix = ".aegis_temp".toList := by decide

/-- The reversal of `tempSuffix`, precomputed for scanning lemmas. -/
def tempSuffixRev : List Char := ['p', 'm', 'e', 't', '_', 's', 'i', 'g', 'e', 'a', '.']

theorem tempSuffix_reverse : tempSuffix.reverse = tempSuffixRev := by decide

theorem takeWhile_tempRev (r : List Char) :
    (tempSuffixRev ++ r).takeWhile (fun c => !isSep c)
      = tempSuffixRev ++ r.takeWhile (fun c => !isSep c) := by
  simp [tempSuffixRev, List.takeWhile_cons, isSep]

theorem suffixRevAux_tempRev (acc r : List Char) :
    suffixRevAux acc (tempSuffixRev ++ r)
      = if r ≠ [] then '.' :: (['a', 'e', 'g', 'i', 's', '_', 't', 'e', 'm', 'p'] ++ acc)
        else [] := by
  by_cases hr : r = [] <;> simp [tempSuffixRev, suffixRevAux, hr]

/-- A path whose pathlib suffix (lower-cased) is a supported image format
cannot end in the sanitizer's `".aegis_temp"` temporary marker. -/
theorem no_temp_marker_of_supported (p : Path)
    (h : supportedFormats.contains (pyLower (pathlibSuffix p)) = true) :
    ∀ q, p ≠ q ++ tempSuffix := by
  intro q hq
  subst hq
  rw [pathlibSuffix, List.reverse_append, tempSuffix_reverse, takeWhile_tempRev,
    suffixRevAux_tempRev] at h
  by_cases hr : q.reverse.takeWhile (fun c => !isSep c) = [] <;>
    simp [hr, pyLower, lowerChar, supportedFormats] at h

/-- C7 counterexample: `is_image_file` accepts `/pics/photo_cleaned.png`
even though its filename bears the `_cleaned` internal-artifact marker,
so `is_image_file` alone is not the full marker filter the claim states. -/
theorem c7_counterexample :
    isImageFile "/pics/photo_cleaned.png".toList = true ∧
    hasSubstr "_cleaned".toList (basenameOf "/pics/photo_cleaned.png".toList) = true := by
  decide

/-- C7 (amended): `is_image_file` itself checks only the extension, the
timestamp-shaped infix and the `_FAILED_` marker; the `_cleaned`, `_ERROR_`,
leading-tilde and backup-root exclusions are enforced by the guard sequence
of `handle_file_event`.  Any path accepted by that composite guard chain has
a supported extension, bears none of the internal-artifact markers (temp
suffix, `_cleaned`, `_FAILED_`, `_ERROR_`, leading tilde, timestamp-shaped
infix) and does not contain the backup root. -/
theorem c7_event_guards_exclude_markers (bf p : Path)
    (h : eventPathGuardsAccept bf p = true) :
    isImageFile p = true ∧
    supportedFormats.contains (pyLower (pathlibSuffix p)) = true ∧
    hasTsPattern (basenameOf p) = false ∧
    hasSubstr "_FAILED_".toList (basenameOf p) = false ∧
    hasSubstr "_cleaned".toList (basenameOf p) = false ∧
    hasSubstr "_ERROR_".toList (basenameOf p) = false ∧
    pyStartsWith (basenameOf p) "~".toList = false ∧
    hasSubstr bf p = false ∧
    (∀ q, p ≠ q ++ tempSuffix) := by
  have himg : isImageFile p = true := by
    by_contra hc
    rw [Bool.not_eq_true] at hc
    rw [eventPathGuardsAccept, hc] at h
    simp at h
  rw [eventPathGuardsAccept, himg] at h
  simp only [Bool.not_true, Bool.false_eq_true, if_false] at h
  have hparts : supportedFormats.contains (pyLower (pathlibSuffix p)) = true ∧
      hasTsPattern (basenameOf p) = false ∧
      hasSubstr "_FAILED_".toList (basenameOf p) = false := by
    have himg' := himg
    rw [isImageFile] at himg'
    by_cases hA : supportedFormats.contains (pyLower (pathlibSuffix p)) = true
    · rw [hA] at himg'
      simp only [Bool.not_true, Bool.false_eq_true, if_false] at himg'
      by_cases hB : hasTsPattern (basenameOf p) = true
      · rw [hB] at himg'
        simp at himg'
      · rw [Bool.not_eq_true] at hB
        rw [hB] at himg'
        by_cases hC : hasSubstr "_FAILED_".toList (basenameOf p) = true
        · rw [hC] at himg'
          simp at himg'
        · rw [Bool.not_eq_true] at hC
          exact ⟨hA, hB, hC⟩
    · rw [Bool.not_eq_true] at hA
      rw [hA] at himg'
      simp at himg'
  obtain ⟨hA, hB, hC⟩ := hparts
  by_cases hD : hasSubstr bf p = true
  · rw [hD] at h
    simp at h
  rw [Bool.not_eq_true] at hD
  rw [hD] at h
  simp only [Bool.false_eq_true, if_false] at h
  have hmark : (hasSubstr "_cleaned".toList (basenameOf p)
      || hasSubstr "_FAILED_".toList (basenameOf p)
      || hasSubstr "_ERROR_".toList (basenameOf p)
      || pyStartsWith (basenameOf p) "~".toList) = false := by
    by_contra hc
    rw [Bool.not_eq_false] at hc
    rw [hc] at h
    simp at h
  simp only [Bool.or_eq_false_iff] at hmark
  obtain ⟨⟨⟨hcl, _⟩, herr⟩, htld⟩ := hmark
  exact ⟨himg, hA, hB, hC, hcl, herr, htld, hD,
    no_temp_marker_of_supported p hA⟩

/-- C7 amended witness: a concrete accepted path satisfies all exclusions. -/
theorem c7_event_guards_witness :
    isImageFile "/pics/photo.png".toList = true ∧
    supportedFormats.contains (pyLower (pathlibSuffix "/pics/photo.png".toList)) = true ∧
    hasTsPattern (basenameOf "/pics/photo.png".toList) = false ∧
    hasSubstr "_FAILED_".toList (basenameOf "/pics/photo.png".toList) = false ∧
    hasSubstr "_cleaned".toList (basenameOf "/pics/photo.png".toList) = false ∧
    hasSubstr "_ERROR_".toList (basenameOf "/pics/photo.png".toList) = false ∧
    pyStartsWith (basenameOf "/pics/photo.png".toList) "~".toList = false ∧
    hasSubstr "/bak".toList "/pics/photo.png".toList = false ∧
    (∀ q, "/pics/photo.png".toList ≠ q ++ tempSuffix) :=
  c7_event_guards_exclude_markers "/bak".toList "/pics/photo.png".toList (by decide)

/-! ## Sanitizer: format dispatch of `ImageSanitizer._save_cleaned_image`
and the in-place mode of `ImageSanitizer.clean_image`
(sanitizer_engine.py 33-96, 272-345) -/

/-- Structure lemma: a successful reversed extension scan implies the
leading-dot guard holds for that reversed fragment. -/
theorem hasNonDot_of_extOfRevAux_some (l : List Char) :
    ∀ acc e, extOfRevAux acc l = some e → hasNonDotBeforeSep l = true := by
  induction l with
  | nil => intro acc e h; simp [extOfRevAux] at h
  | cons c rest ih =>
    intro acc e h
    rw [extOfRevAux] at h
    by_cases hs : isSep c = true
    · simp [hs] at h
    · rw [Bool.not_eq_true] at hs
      rw [hs] at h
      simp only [Bool.false_eq_true, if_false] at h
      by_cases hd : (c == '.') = true
      · rw [hasNonDotBeforeSep, hs, hd]
        rw [hd] at h
        simp only [if_true] at h
        by_cases hn : hasNonDotBeforeSep rest = true
        · simpa using hn
        · rw [Bool.not_eq_true] at hn
          rw [hn] at h
          simp at h
      · rw [Bool.not_eq_true] at hd
        rw [hd] at h
        simp only [Bool.false_eq_true, if_false] at h
        rw [hasNonDotBeforeSep, hs, hd]
        simp

/-- Scanning `tempSuffixRev ++ r`: the ten letters of `aegis_temp` are
consumed, then the dot decides on the leading-dot guard of `r`. -/
theorem extOfRevAux_tempRev (acc r : List Char) :
    extOfRevAux acc (tempSuffixRev ++ r)
      = if hasNonDotBeforeSep r then
          some ('.' :: (['a', 'e', 'g', 'i', 's', '_', 't', 'e', 'm', 'p'] ++ acc))
        else none := by
  by_cases hr : hasNonDotBeforeSep r = true <;>
    simp [tempSuffixRev, extOfRevAux, isSep, hr]

/-- Appending the `".aegis_temp"` marker to a path that has a proper
basename makes `".aegis_temp"` the whole extension. -/
theorem extOf_append_tempSuffix (q : Path)
    (h : hasNonDotBeforeSep q.reverse = true) :
    extOf (q ++ tempSuffix) = some tempSuffix := by
  rw [extOf, List.reverse_append, tempSuffix_reverse, extOfRevAux_tempRev, h]
  simp [tempSuffix]

/-- Embedding of `ImageSanitizer.supported_formats` (sanitizer_engine.py 25-31): the
seven base formats, plus HEIF/HEIC when the optional codec is available. -/
def sanitizerFormats (heifAvailable : Bool) : List (List Char) :=
  [".jpg".toList, ".jpeg".toList, ".png".toList, ".bmp".toList,
   ".tiff".toList, ".tif".toList, ".webp".toList]
    ++ (if heifAvailable then [".heif".toList, ".heic".toList] else [])

/-- Embedding of `ImageSanitizer._is_supported_format` (sanitizer_engine.py 98-101):
lower-case the path, split the extension, test membership. -/
def isSanitizerSupported (heifAvailable : Bool) (p : Path) : Bool :=
  (sanitizerFormats heifAvailable).contains (splitext (pyLower p)).2

/-- The encoder branch chosen by `_save_cleaned_image`
(sanitizer_engine.py 286-342).  `defaultPngB` is the final `else` branch
that saves as PNG. -/
inductive SaveFormat where
  | jpegB
  | pngB
  | bmpB
  | tiffB
  | webpB
  | heifB
  | jpegFallbackB
  | defaultPngB
  deriving DecidableEq

/-- Branch selection of `_save_cleaned_image`: the extension of the
lower-cased output path decides the encoder. -/
def saveFormatFor (heifAvailable : Bool) (outputPath : Path) : SaveFormat :=
  let ext := (splitext (pyLower outputPath)).2
  if ext = ".jpg".toList ∨ ext = ".jpeg".toList then .jpegB
  else if ext = ".png".toList then .pngB
  else if ext = ".bmp".toList then .bmpB
  else if ext = ".tiff".toList ∨ ext = ".tif".toList then .tiffB
  else if ext = ".webp".toList then .webpB
  else if ext = ".heif".toList ∨ ext = ".heic".toList then
    (if heifAvailable then .heifB else .jpegFallbackB)
  else .defaultPngB

/-- In-place mode of `ImageSanitizer.clean_image` (output_path = None):
the cleaned image is saved to `input_path + ".aegis_temp"`, whose
extension selects the encoder, and the temp file is then renamed over the
original.  Returns the encoder whose output lands at the original path,
or `none` when the input format is rejected up front. -/
def cleanImageInPlaceFormat (heifAvailable : Bool) (inputPath : Path) : Option SaveFormat :=
  if !isSanitizerSupported heifAvailable inputPath then none
  else some (saveFormatFor heifAvailable (inputPath ++ tempSuffix))

example : cleanImageInPlaceFormat true "/pics/a.jpg".toList = some SaveFormat.defaultPngB := by
  decide
example : cleanImageInPlaceFormat false "/pics/a.webp".toList = some SaveFormat.defaultPngB := by
  decide
example : saveFormatFor true "/pics/a.jpg".toList = SaveFormat.jpegB := by decide

/-- C10: for every supported input extension, the in-place cleaning path
of `clean_image` writes via the temporary `".aegis_temp"` path, whose
extension matches no encoder branch of `_save_cleaned_image`, so the bytes
renamed over the original are always produced by the default PNG branch. -/
theorem c10_inplace_always_default_png (heifAvailable : Bool) (p : Path)
    (h : isSanitizerSupported heifAvailable p = true) :
    cleanImageInPlaceFormat heifAvailable p = some SaveFormat.defaultPngB := by
  rw [cleanImageInPlaceFormat, h]
  simp only [Bool.not_true, Bool.false_eq_true, if_false]
  have hext : extOf (pyLower (p ++ tempSuffix)) = some tempSuffix := by
    have hlow : pyLower (p ++ tempSuffix) = pyLower p ++ tempSuffix := by
      rw [pyLower, List.map_append]
      have : tempSuffix.map lowerChar = tempSuffix := by decide
      rw [this]
      rfl
    rw [hlow]
    apply extOf_append_tempSuffix
    rw [isSanitizerSupported] at h
    cases hE : extOf (pyLower p) with
    | none =>
      rw [splitext, hE] at h
      cases heifAvailable <;> simp [sanitizerFormats] at h
    | some e => exact hasNonDot_of_extOfRevAux_some _ _ _ hE
  rw [saveFormatFor]
  rw [splitext, hext]
  simp [tempSuffix]

/-- C10 witness at a concrete supported input. -/
theorem c10_witness :
    isSanitizerSupported true "/pics/a.jpg".toList = true ∧
    cleanImageInPlaceFormat true "/pics/a.jpg".toList = some SaveFormat.defaultPngB :=
  ⟨by decide, c10_inplace_always_default_png true "/pics/a.jpg".toList (by decide)⟩

/-! ## BackupVault: `ProcessingWorker.create_dated_backup_path`
(monitoring_manager.py 276-320) -/

/-- Decimal digit characters of `n`, most significant first
(Python `str(n)` for positive `n`). -/
def decChars (n : Nat) : List Char :=
  ((Nat.digits 10 n).map Nat.digitChar).reverse

/-- Python `f"{n:03d}"`: zero-pad the decimal representation to width 3. -/
def padTo3 (n : Nat) : List Char :=
  let ds := decChars n
  List.replicate (3 - ds.length) '0' ++ ds

/-- The candidate name `f"{name}_{counter:03d}{ext}"` of the collision
loop (monitoring_manager.py line 310). -/
def suffixedName (stem ext : Path) (c : Nat) : Path :=
  stem ++ '_' :: (padTo3 c ++ ext)

theorem length_le_foldr_max (occ : List Path) :
    ∀ q ∈ occ, q.length ≤ (occ.map List.length).foldr max 0 := by
  induction occ with
  | nil => intro q hq; simp at hq
  | cons a rest ih =>
    intro q hq
    rcases List.mem_cons.mp hq with h | h
    · subst h
      exact le_max_left _ _
    · exact le_trans (ih q h) (le_max_right _ _)

theorem padTo3_length_ge (n : Nat) : (decChars n).length ≤ (padTo3 n).length := by
  simp [padTo3]

/-- There is always a free suffixed name: a counter with more decimal
digits than any occupied path is long enough to be fresh. -/
theorem exists_free_suffix (occ : List Path) (stem ext : Path) :
    ∃ c, suffixedName stem ext (c + 1) ∉ occ := by
  refine ⟨10 ^ ((occ.map List.length).foldr max 0 + 1) - 1, fun hmem => ?_⟩
  set M := (occ.map List.length).foldr max 0 with hM
  have hpos : 0 < (10 : Nat) ^ (M + 1) := pow_pos (by norm_num) _
  have h1 : 10 ^ (M + 1) - 1 + 1 = 10 ^ (M + 1) := Nat.succ_pred_eq_of_pos hpos
  rw [h1] at hmem
  have h2 : (Nat.digits 10 (10 ^ (M + 1))).length = M + 2 := by
    rw [Nat.digits_len 10 _ (by norm_num) (Nat.pos_iff_ne_zero.mp hpos)]
    rw [Nat.log_pow (by norm_num)]
  have h3 : M + 2 ≤ (suffixedName stem ext (10 ^ (M + 1))).length := by
    have : (decChars (10 ^ (M + 1))).length = M + 2 := by
      simpa [decChars] using h2
    calc M + 2 ≤ (padTo3 (10 ^ (M + 1))).length := this ▸ padTo3_length_ge _
      _ ≤ (suffixedName stem ext (10 ^ (M + 1))).length := by
          simp [suffixedName]
          omega
  have h4 := length_le_foldr_max occ _ hmem
  omega

/-- The counter search of the collision loop, offset so that the loop's
first probe is counter 1: `freeCounter + 1` is the least free counter. -/
def freeCounter (occ : List Path) (stem ext : Path) : Nat :=
  Nat.find (exists_free_suffix occ stem ext)

/-- The collision loop of `create_dated_backup_path` (lines 307-312):
if the computed path exists, split off the extension and append the least
free zero-padded counter (starting from 1) before the extension. -/
def resolveCollision (occ : List Path) (base : Path) : Path :=
  if base ∈ occ then
    suffixedName (splitext base).1 (splitext base).2
      (freeCounter occ (splitext base).1 (splitext base).2 + 1)
  else base

theorem resolveCollision_not_mem (occ : List Path) (base : Path) :
    resolveCollision occ base ∉ occ := by
  rw [resolveCollision]
  by_cases hb : base ∈ occ
  · rw [if_pos hb, freeCounter]
    exact Nat.find_spec (exists_free_suffix occ (splitext base).1 (splitext base).2)
  · rw [if_neg hb]
    exact hb

/-- Embedding of `os.path.relpath(p, root)` for a path lying componentwise under
`root`, the only configuration the matching loop of
`create_dated_backup_path` produces for normalized monitored roots. -/
def relpathFromRoot (p root : Path) : Path :=
  (p.drop root.length).dropWhile isSep

/-- The root-matching loop (lines 290-296): the first monitored folder the
path starts with. -/
def rootMatch (folders : List Path) (p : Path) : Option Path :=
  folders.find? (fun f => pyStartsWith p f)

/-- Relative path and root directory name for the dated layout
(lines 287-300): from the matched monitored root, or the fallback
`basename` / `"unknown_source"` pair. -/
def datedRelRoot (folders : List Path) (p : Path) : Path × Path :=
  match rootMatch folders p with
  | some f => (relpathFromRoot p f, basenameOf (rstripSep f))
  | none => (basenameOf p, "unknown_source".toList)

/-- The computed dated backup path before collision resolution
(lines 302-304): `<backupFolder>/<timestamp>/<rootName>/<relativePath>`. -/
def datedBase (backupFolder ts : Path) (folders : List Path) (p : Path) : Path :=
  pyJoin (pyJoin (pyJoin backupFolder ts) (datedRelRoot folders p).2)
    (datedRelRoot folders p).1

/-- Embedding of `ProcessingWorker.create_dated_backup_path`: the dated base path with
collision resolution against the set of existing paths. -/
def createDatedBackupPath (backupFolder ts : Path) (folders : List Path)
    (occ : List Path) (p : Path) : Path :=
  resolveCollision occ (datedBase backupFolder ts folders p)

/-- C6: when the computed dated backup path already exists, the
construction returns the least free zero-padded suffixed name (counter
starting at 1, suffix inserted before the extension), and never a path
that already exists; consequently a second staging that maps to the same
computed path (with the first artifact now retained) yields a distinct
second artifact, never an overwrite. -/
theorem c6_collision_suffix_no_overwrite (backupFolder ts : Path)
    (folders : List Path) (occ : List Path) (p : Path)
    (hmem : datedBase backupFolder ts folders p ∈ occ) :
    (∃ c, createDatedBackupPath backupFolder ts folders occ p
        = suffixedName (splitext (datedBase backupFolder ts folders p)).1
            (splitext (datedBase backupFolder ts folders p)).2 (c + 1)
      ∧ suffixedName (splitext (datedBase backupFolder ts folders p)).1
            (splitext (datedBase backupFolder ts folders p)).2 (c + 1) ∉ occ
      ∧ ∀ k < c, suffixedName (splitext (datedBase backupFolder ts folders p)).1
            (splitext (datedBase backupFolder ts folders p)).2 (k + 1) ∈ occ)
    ∧ createDatedBackupPath backupFolder ts folders occ p ∉ occ
    ∧ createDatedBackupPath backupFolder ts folders
        (createDatedBackupPath backupFolder ts folders occ p :: occ) p
      ≠ createDatedBackupPath backupFolder ts folders occ p := by
  have hcd : ∀ o : List Path, createDatedBackupPath backupFolder ts folders o p
      = resolveCollision o (datedBase backupFolder ts folders p) := fun _ => rfl
  constructor
  · refine ⟨freeCounter occ
        (splitext (datedBase backupFolder ts folders p)).1
        (splitext (datedBase backupFolder ts folders p)).2, ?_, ?_, ?_⟩
    · rw [hcd, resolveCollision, if_pos hmem]
    · rw [freeCounter]
      exact Nat.find_spec (exists_free_suffix occ
        (splitext (datedBase backupFolder ts folders p)).1
        (splitext (datedBase backupFolder ts folders p)).2)
    · intro k hk
      rw [freeCounter] at hk
      have := Nat.find_min (exists_free_suffix occ
        (splitext (datedBase backupFolder ts folders p)).1
        (splitext (datedBase backupFolder ts folders p)).2) hk
      exact not_not.mp this
  · constructor
    · rw [hcd]
      exact resolveCollision_not_mem occ _
    · intro hc
      have h2 := resolveCollision_not_mem
        (createDatedBackupPath backupFolder ts folders occ p :: occ)
        (datedBase backupFolder ts folders p)
      rw [← hcd] at h2
      rw [hc] at h2
      exact h2 (List.mem_cons_self _ _)

/-- C6 witness: a concrete clash forces a suffixed, fresh, distinct name. -/
theorem c6_witness :
    datedBase "/bak".toList "202601011200".toList [] "a.png".toList
      ∈ [datedBase "/bak".toList "202601011200".toList [] "a.png".toList] ∧
    ((∃ c, createDatedBackupPath "/bak".toList "202601011200".toList [] [datedBase "/bak".toList "202601011200".toList [] "a.png".toList] "a.png".toList
        = suffixedName (splitext (datedBase "/bak".toList "202601011200".toList [] "a.png".toList)).1
            (splitext (datedBase "/bak".toList "202601011200".toList [] "a.png".toList)).2 (c + 1)
      ∧ suffixedName (splitext (datedBase "/bak".toList "202601011200".toList [] "a.png".toList)).1
            (splitext (datedBase "/bak".toList "202601011200".toList [] "a.png".toList)).2 (c + 1)
          ∉ [datedBase "/bak".toList "202601011200".toList [] "a.png".toList]
      ∧ ∀ k < c, suffixedName (splitext (datedBase "/bak".toList "202601011200".toList [] "a.png".toList)).1
            (splitext (datedBase "/bak".toList "202601011200".toList [] "a.png".toList)).2 (k + 1)
          ∈ [datedBase "/bak".toList "202601011200".toList [] "a.png".toList])
    ∧ createDatedBackupPath "/bak".toList "202601011200".toList [] [datedBase "/bak".toList "202601011200".toList [] "a.png".toList] "a.png".toList
        ∉ [datedBase "/bak".toList "202601011200".toList [] "a.png".toList]
    ∧ createDatedBackupPath "/bak".toList "202601011200".toList []
        (createDatedBackupPath "/bak".toList "202601011200".toList [] [datedBase "/bak".toList "202601011200".toList [] "a.png".toList] "a.png".toList
          :: [datedBase "/bak".toList "202601011200".toList [] "a.png".toList]) "a.png".toList
      ≠ createDatedBackupPath "/bak".toList "202601011200".toList [] [datedBase "/bak".toList "202601011200".toList [] "a.png".toList] "a.png".toList) :=
  ⟨List.mem_cons_self _ _,
    c6_collision_suffix_no_overwrite "/bak".toList "202601011200".toList [] _ "a.png".toList
      (List.mem_cons_self _ _)⟩

/-! ## Structure lemmas: extensions, stems, dirnames, last characters -/

theorem extOfRevAux_split :
    ∀ (l acc e : List Char), extOfRevAux acc l = some e →
      ∃ a b, l = a ++ '.' :: b ∧ e = '.' :: (a.reverse ++ acc) ∧
        ∀ c ∈ a, isSep c = false ∧ (c == '.') = false := by
  intro l
  induction l with
  | nil => intro acc e h; simp [extOfRevAux] at h
  | cons c rest ih =>
    intro acc e h
    simp only [extOfRevAux] at h
    by_cases hs : isSep c = true
    · simp [hs] at h
    rw [Bool.not_eq_true] at hs
    rw [hs] at h
    simp only [Bool.false_eq_true, if_false] at h
    by_cases hd : (c == '.') = true
    · rw [hd] at h
      simp only [if_true] at h
      by_cases hn : hasNonDotBeforeSep rest = true
      · rw [hn] at h
        simp only [if_true, Option.some.injEq] at h
        have hc : c = '.' := by simpa using hd
        refine ⟨[], rest, by rw [hc]; rfl, by simp [← h], by intro x hx; simp at hx⟩
      · rw [Bool.not_eq_true] at hn
        rw [hn] at h
        simp at h
    · rw [Bool.not_eq_true] at hd
      rw [hd] at h
      simp only [Bool.false_eq_true, if_false] at h
      obtain ⟨a, b, h1, h2, h3⟩ := ih (c :: acc) e h
      refine ⟨c :: a, b, by rw [List.cons_append, h1], ?_, ?_⟩
      · rw [h2]
        simp
      · intro x hx
        rcases List.mem_cons.mp hx with rfl | hx'
        · exact ⟨hs, hd⟩
        · exact h3 x hx'

/-- A path with an extension decomposes as stem-plus-extension, and
`splitext` returns exactly that decomposition. -/
theorem exists_stem (p e : Path) (h : extOf p = some e) :
    ∃ st, p = st ++ e ∧ splitext p = (st, e) := by
  obtain ⟨a, b, h1, h2, _⟩ := extOfRevAux_split p.reverse [] e h
  have hp : p = b.reverse ++ e := by
    have h1' := congrArg List.reverse h1
    rw [List.reverse_reverse] at h1'
    rw [h1', List.reverse_append, List.reverse_cons, h2]
    simp
  refine ⟨b.reverse, hp, ?_⟩
  have ht : p.take (p.length - e.length) = b.reverse := by
    rw [hp]
    simp
  simp only [splitext, h, ht]

/-- The reversal of a path of the form `A ++ '/' :: rel`. -/
theorem reverse_sep_append (A rel : Path) :
    (A ++ '/' :: rel).reverse = rel.reverse ++ '/' :: A.reverse := by
  simp

/-- If a path of the form `A ++ '/' :: rel` has an extension, its stem
still starts with `A ++ '/'`: the extension never swallows a separator. -/
theorem stem_after_sep (A rel e : Path) (h : extOf (A ++ '/' :: rel) = some e) :
    ∃ w, (splitext (A ++ '/' :: rel)).1 = A ++ '/' :: w := by
  obtain ⟨st, hp, hsp⟩ := exists_stem _ e h
  obtain ⟨a, b, h1, h2, h3⟩ := extOfRevAux_split (A ++ '/' :: rel).reverse [] e h
  rw [reverse_sep_append] at h1
  have hlt : a.length < rel.length := by
    by_contra hge
    push_neg at hge
    have hge' : rel.reverse.length ≤ a.length := by simpa using hge
    have hd := congrArg (List.drop rel.reverse.length) h1
    rw [List.drop_left' rfl] at hd
    rw [List.drop_append_eq_append_drop, Nat.sub_eq_zero_of_le hge', List.drop_zero] at hd
    cases hdrop : a.drop rel.reverse.length with
    | nil => rw [hdrop] at hd; simp at hd
    | cons c a' =>
      rw [hdrop] at hd
      have hc : '/' = c := by simpa using congrArg List.head? hd
      have hmem : c ∈ a :=
        List.drop_subset _ _ (hdrop ▸ List.mem_cons_self c a')
      have hns := (h3 c hmem).1
      rw [← hc] at hns
      simp [isSep] at hns
  -- split rel.reverse at the dot
  have htk := congrArg (List.take (a.length + 1)) h1
  have h5 : (a ++ '.' :: b).take (a.length + 1) = a ++ ['.'] := by
    rw [List.take_append_eq_append_take, List.take_of_length_le (Nat.le_succ _),
      Nat.add_sub_cancel_left]
    rfl
  have h6 : (rel.reverse ++ '/' :: A.reverse).take (a.length + 1)
      = rel.reverse.take (a.length + 1) := by
    rw [List.take_append_eq_append_take,
      Nat.sub_eq_zero_of_le (by simpa using hlt), List.take_zero, List.append_nil]
  rw [h5, h6] at htk
  have hrel : rel.reverse = a ++ '.' :: rel.reverse.drop (a.length + 1) := by
    conv_lhs => rw [← List.take_append_drop (a.length + 1) rel.reverse]
    rw [htk]
    simp
  have hb : b = rel.reverse.drop (a.length + 1) ++ '/' :: A.reverse := by
    have h1b : a ++ '.' :: b
        = a ++ '.' :: (rel.reverse.drop (a.length + 1) ++ '/' :: A.reverse) := by
      rw [← h1]
      conv_lhs => rw [hrel]
      simp
    have h1c := List.append_cancel_left h1b
    exact (List.cons.injEq _ _ _ _ ▸ h1c).2
  have hrevp : (a ++ '.' :: b).reverse = A ++ '/' :: rel := by
    rw [← h1]
    simp
  have hAre : A ++ '/' :: rel = b.reverse ++ e := by
    rw [← hrevp, h2]
    simp
  have hst : st = b.reverse := List.append_cancel_right (hp.symm.trans hAre)
  refine ⟨(rel.reverse.drop (a.length + 1)).reverse, ?_⟩
  rw [hsp]
  show st = _
  rw [hst, hb]
  simp

/-- A suffixed candidate name built on a `A ++ '/'` shaped base keeps the
`A ++ '/'` prefix, whatever the counter. -/
theorem suffixedName_stem_shape (A rel : Path) (c : Nat) :
    ∃ w, suffixedName (splitext (A ++ '/' :: rel)).1 (splitext (A ++ '/' :: rel)).2 c
      = A ++ '/' :: w := by
  cases hE : extOf (A ++ '/' :: rel) with
  | none =>
    have hsp : splitext (A ++ '/' :: rel) = (A ++ '/' :: rel, []) := by
      rw [splitext, hE]
    refine ⟨rel ++ '_' :: (padTo3 c ++ []), ?_⟩
    rw [hsp, suffixedName]
    simp
  | some e =>
    obtain ⟨w, hw⟩ := stem_after_sep A rel e hE
    refine ⟨w ++ '_' :: (padTo3 c ++ (splitext (A ++ '/' :: rel)).2), ?_⟩
    rw [suffixedName, hw]
    simp

/-- The collision resolver preserves any `A ++ '/'` shaped prefix. -/
theorem resolveCollision_shape (occ : List Path) (A rel : Path) :
    ∃ w, resolveCollision occ (A ++ '/' :: rel) = A ++ '/' :: w := by
  rw [resolveCollision]
  by_cases hb : (A ++ '/' :: rel) ∈ occ
  · rw [if_pos hb]
    exact suffixedName_stem_shape A rel _
  · rw [if_neg hb]
    exact ⟨rel, rfl⟩

/-- Any path of the shape `A ++ '/' :: w` starts with `A ++ "/"`. -/
theorem startsWith_sep_shape (A w : Path) :
    pyStartsWith (A ++ '/' :: w) (A ++ ['/']) = true := by
  rw [pyStartsWith]
  rw [show A ++ '/' :: w = (A ++ ['/']) ++ w from by simp]
  rw [List.take_left]
  simp

theorem ne_of_startsWith_mismatch (x y pre : Path)
    (hx : pyStartsWith x pre = true) (hy : pyStartsWith y pre = false) : x ≠ y := by
  intro hc
  rw [hc, hy] at hx
  cases hx

/-- Core of the dirname computation on reversed lists: dropping the
basename of `r ++ '/' :: A.reverse` leaves `A` extended by at most a
separator-led tail. -/
theorem dirname_rev_shape (r : List Char) (A : Path) :
    ∃ w, (((r ++ '/' :: A.reverse).dropWhile (fun c => !isSep c)).tail).reverse
        = A ++ w ∧ (w = [] ∨ ∃ w', w = '/' :: w') := by
  induction r with
  | nil =>
    refine ⟨[], ?_, Or.inl rfl⟩
    simp [List.dropWhile, isSep]
  | cons c r' ih =>
    by_cases hs : isSep c = true
    · refine ⟨'/' :: r'.reverse, ?_, Or.inr ⟨r'.reverse, rfl⟩⟩
      simp [List.dropWhile, hs]
    · obtain ⟨w, hw, hcase⟩ := ih
      refine ⟨w, ?_, hcase⟩
      rw [← hw]
      simp [List.dropWhile, hs]

/-- The `os.path.dirname` of `A ++ '/' :: t` is `A` possibly extended by a
separator-led tail. -/
theorem dirnameOf_shape (A t : Path) :
    ∃ w, dirnameOf (A ++ '/' :: t) = A ++ w ∧ (w = [] ∨ ∃ w', w = '/' :: w') := by
  rw [dirnameOf, reverse_sep_append]
  exact dirname_rev_shape t.reverse A

/-- Joining a filename onto the dirname of an `A ++ '/'` shaped path stays
under `A ++ '/'`. -/
theorem join_dirname_startsWith (A t fname : Path) :
    pyStartsWith (pyJoin (dirnameOf (A ++ '/' :: t)) fname) (A ++ ['/']) = true := by
  obtain ⟨w, hw, hcase⟩ := dirnameOf_shape A t
  rw [pyJoin, hw]
  rcases hcase with rfl | ⟨w', rfl⟩
  · rw [List.append_nil]
    exact startsWith_sep_shape A fname
  · rw [show A ++ '/' :: w' ++ '/' :: fname = A ++ '/' :: (w' ++ '/' :: fname) from by simp]
    exact startsWith_sep_shape A _

theorem padTo3_ne_nil (n : Nat) : padTo3 n ≠ [] := by
  rw [padTo3]
  intro h
  rcases List.append_eq_nil.mp h with ⟨h1, h2⟩
  have l1 : 3 - (decChars n).length = 0 := by
    have := congrArg List.length h1
    simpa using this
  rw [h2] at l1
  simp at l1

theorem digitChar_isDigit (d : Nat) (hd : d < 10) :
    isDigitCh (Nat.digitChar d) = true := by
  interval_cases d <;> decide

theorem padTo3_digits (n : Nat) : ∀ c ∈ padTo3 n, isDigitCh c = true := by
  intro c hc
  rw [padTo3] at hc
  rcases List.mem_append.mp hc with h | h
  · rw [List.eq_of_mem_replicate h]
    decide
  · rw [decChars] at h
    rw [List.mem_reverse] at h
    obtain ⟨d, hd, rfl⟩ := List.mem_map.mp h
    exact digitChar_isDigit d (Nat.digits_lt_base (by norm_num) hd)

/-- An extension returned by `extOf` is never empty. -/
theorem extOf_ne_nil (p e : Path) (h : extOf p = some e) : e ≠ [] := by
  obtain ⟨_, _, _, h2, _⟩ := extOfRevAux_split p.reverse [] e h
  rw [h2]
  simp

/-- The last element of a suffixed name with a non-empty extension is the
extension's last element. -/
theorem suffixedName_getLast_ext (st e : Path) (hene : e ≠ []) (c : Nat) :
    (suffixedName st e c).getLast? = e.getLast? := by
  rw [suffixedName]
  rw [show ('_' : Char) :: (padTo3 c ++ e) = ('_' :: padTo3 c) ++ e from by simp]
  rw [← List.append_assoc]
  rw [List.getLast?_append_of_ne_nil _ hene]

/-- With an empty extension the suffixed name ends in a counter digit. -/
theorem suffixedName_getLast_noext (st : Path) (c : Nat) :
    ∃ d, (suffixedName st [] c).getLast? = some d ∧ isDigitCh d = true := by
  have hpne := padTo3_ne_nil c
  cases hg : (padTo3 c).getLast? with
  | none => exact absurd (List.getLast?_eq_none_iff.mp hg) hpne
  | some d =>
    refine ⟨d, ?_, padTo3_digits _ d (List.mem_of_getLast?_eq_some hg)⟩
    rw [suffixedName, List.append_nil]
    rw [show ('_' : Char) :: padTo3 c = ['_'] ++ padTo3 c from rfl]
    rw [← List.append_assoc]
    rw [List.getLast?_append_of_ne_nil _ hpne]
    exact hg

/-- The last character of a collision-resolved path is the last character
of the base path, or a decimal digit from the counter suffix. -/
theorem resolveCollision_getLast (occ : List Path) (base : Path) :
    (resolveCollision occ base).getLast? = base.getLast?
    ∨ ∃ d, (resolveCollision occ base).getLast? = some d ∧ isDigitCh d = true := by
  rw [resolveCollision]
  by_cases hb : base ∈ occ
  · rw [if_pos hb]
    cases hE : extOf base with
    | some e =>
      obtain ⟨st, hst, hsp⟩ := exists_stem base e hE
      have hene := extOf_ne_nil base e hE
      left
      rw [hsp]
      show (suffixedName st e (freeCounter occ st e + 1)).getLast? = base.getLast?
      rw [suffixedName_getLast_ext st e hene]
      rw [hst, List.getLast?_append_of_ne_nil _ hene]
    | none =>
      have hsp : splitext base = (base, []) := by rw [splitext, hE]
      right
      rw [hsp]
      show ∃ d, (suffixedName base [] (freeCounter occ base [] + 1)).getLast? = some d
        ∧ isDigitCh d = true
      exact suffixedName_getLast_noext base _
  · rw [if_neg hb]
    left
    rfl

/-- The basename is empty, or ends in the path's last character. -/
theorem basenameOf_getLast (p : Path) :
    basenameOf p = [] ∨ (basenameOf p).getLast? = p.getLast? := by
  rw [basenameOf]
  cases hpr : p.reverse with
  | nil => left; simp
  | cons c rest =>
    by_cases hs : isSep c = true
    · left
      simp [List.takeWhile_cons, hs]
    · right
      rw [Bool.not_eq_true] at hs
      rw [List.takeWhile_cons, hs]
      simp only [Bool.not_false, if_true]
      rw [List.getLast?_reverse]
      rw [← List.head?_reverse, hpr]
      rfl

/-- A non-empty `dropWhile` result keeps the source's last element. -/
theorem dropWhile_getLast {q : Char → Bool} (l : List Char)
    (h : l.dropWhile q ≠ []) : (l.dropWhile q).getLast? = l.getLast? := by
  obtain ⟨t, ht⟩ := List.dropWhile_suffix (l := l) q
  conv_rhs => rw [← ht]
  rw [List.getLast?_append_of_ne_nil _ h]

/-- A non-empty `drop` result keeps the source's last element. -/
theorem drop_getLast (l : List Char) (n : Nat) (h : l.drop n ≠ []) :
    (l.drop n).getLast? = l.getLast? := by
  conv_rhs => rw [← List.take_append_drop n l]
  rw [List.getLast?_append_of_ne_nil _ h]

/-- The computed dated base path ends in the original path's last
character, or in a separator (when the relative part degenerates). -/
theorem datedBase_getLast (backupFolder ts : Path) (folders : List Path) (p : Path) :
    (datedBase backupFolder ts folders p).getLast? = p.getLast?
    ∨ (datedBase backupFolder ts folders p).getLast? = some '/' := by
  rw [datedBase, pyJoin]
  set A := pyJoin (pyJoin backupFolder ts) (datedRelRoot folders p).2 with hA
  cases hrel : (datedRelRoot folders p).1 with
  | nil =>
    right
    rw [show A ++ '/' :: ([] : List Char) = A ++ ['/'] from rfl]
    rw [List.getLast?_append_of_ne_nil _ (by simp)]
    rfl
  | cons c0 rel' =>
    have hne : (c0 :: rel' : List Char) ≠ [] := by simp
    have hstep : (A ++ '/' :: (c0 :: rel')).getLast? = (c0 :: rel').getLast? := by
      rw [show A ++ '/' :: (c0 :: rel') = (A ++ ['/']) ++ (c0 :: rel') from by simp]
      rw [List.getLast?_append_of_ne_nil _ hne]
    rw [hstep]
    rw [datedRelRoot] at hrel
    cases hm : rootMatch folders p with
    | none =>
      rw [hm] at hrel
      simp only at hrel
      rcases basenameOf_getLast p with hb | hb
      · rw [hb] at hrel
        cases hrel
      · left
        rw [← hrel, hb]
    | some f =>
      rw [hm] at hrel
      simp only at hrel
      left
      rw [← hrel]
      rw [relpathFromRoot]
      have hdw : (p.drop f.length).dropWhile isSep ≠ [] := by
        rw [relpathFromRoot] at hrel
        rw [hrel]
        simp
      rw [dropWhile_getLast _ hdw]
      apply drop_getLast
      intro hc
      rw [hc] at hdw
      simp [List.dropWhile] at hdw

/-- The pathlib suffix scan returns nothing or a dot-led suffix. -/
theorem suffixRevAux_shape :
    ∀ (l acc : List Char), suffixRevAux acc l = []
      ∨ ∃ res, suffixRevAux acc l = '.' :: res := by
  intro l
  induction l with
  | nil => intro acc; left; rfl
  | cons c rest ih =>
    intro acc
    simp only [suffixRevAux]
    by_cases hd : (c == '.') = true
    · rw [hd]
      simp only [if_true]
      by_cases hcond : acc ≠ [] ∧ rest ≠ []
      · right
        exact ⟨acc, by rw [if_pos hcond]⟩
      · left
        rw [if_neg hcond]
    · rw [Bool.not_eq_true] at hd
      rw [hd]
      simp only [Bool.false_eq_true, if_false]
      exact ih (c :: acc)

/-- A successful pathlib suffix scan splits the scanned (reversed) list at
the dot, with the suffix body being the reversal of the scanned part. -/
theorem suffixRevAux_split :
    ∀ (l acc res : List Char), suffixRevAux acc l = '.' :: res →
      ∃ w rest', l = w ++ '.' :: rest' ∧ res = w.reverse ++ acc := by
  intro l
  induction l with
  | nil => intro acc res h; simp [suffixRevAux] at h
  | cons c rest ih =>
    intro acc res h
    simp only [suffixRevAux] at h
    by_cases hd : (c == '.') = true
    · rw [hd] at h
      simp only [if_true] at h
      by_cases hcond : acc ≠ [] ∧ rest ≠ []
      · rw [if_pos hcond] at h
        have hc : c = '.' := by simpa using hd
        have hres : res = acc := by
          have := (List.cons.injEq _ _ _ _ ▸ h).2
          exact this.symm
        exact ⟨[], rest, by rw [hc]; rfl, by rw [hres]; rfl⟩
      · rw [if_neg hcond] at h
        cases h
    · rw [Bool.not_eq_true] at hd
      rw [hd] at h
      simp only [Bool.false_eq_true, if_false] at h
      obtain ⟨w, rest', h1, h2⟩ := ih (c :: acc) res h
      refine ⟨c :: w, rest', by rw [List.cons_append, h1], ?_⟩
      rw [h2]
      simp

/-- If `is_image_file` accepts, the (lower-cased) pathlib suffix is in the
supported set. -/
theorem isImageFile_fmt (p : Path) (h : isImageFile p = true) :
    supportedFormats.contains (pyLower (pathlibSuffix p)) = true := by
  by_contra hc
  rw [Bool.not_eq_true] at hc
  rw [isImageFile, hc] at h
  simp at h

/-- A path whose lower-cased pathlib suffix equals a format `F` of length
at least 2 whose last character is `g` ends in a character `c0` with
`lowerChar c0 = g`. -/
theorem lastChar_of_suffix_fmt (p F : Path) (hmap : pyLower (pathlibSuffix p) = F)
    (h2 : 2 ≤ F.length) (g : Char) (hg : F.getLast? = some g) :
    ∃ c0, p.getLast? = some c0 ∧ lowerChar c0 = g := by
  have hlen : (pathlibSuffix p).length = F.length := by
    rw [← hmap]
    simp [pyLower]
  rcases suffixRevAux_shape (p.reverse.takeWhile (fun c => !isSep c)) [] with hnil | ⟨res, hres⟩
  · rw [pathlibSuffix] at hlen
    rw [hnil] at hlen
    simp at hlen
    omega
  · have hsuf : pathlibSuffix p = '.' :: res := hres
    obtain ⟨w, rest', hw, hresw⟩ :=
      suffixRevAux_split (p.reverse.takeWhile (fun c => !isSep c)) [] res hres
    rw [List.append_nil] at hresw
    have hresne : res ≠ [] := by
      intro hc
      rw [hsuf, hc] at hlen
      simp at hlen
      omega
    have hwne : w ≠ [] := by
      intro hc
      rw [hc] at hresw
      simp at hresw
      exact hresne hresw
    cases w with
    | nil => exact absurd rfl hwne
    | cons c0 w' =>
      refine ⟨c0, ?_, ?_⟩
      · -- the scanned head is the path's last character
        have hhead : (p.reverse.takeWhile (fun c => !isSep c)).head? = some c0 := by
          rw [hw]
          rfl
        have hph : p.reverse.head? = some c0 := by
          cases hpr : p.reverse with
          | nil =>
            rw [hpr] at hhead
            cases hhead
          | cons y ys =>
            rw [hpr, List.takeWhile_cons] at hhead
            by_cases hy : (!isSep y) = true
            · rw [if_pos hy] at hhead
              simpa using hhead
            · rw [if_neg hy] at hhead
              cases hhead
        rw [List.head?_reverse] at hph
        exact hph
      · -- the format's last character is the lowered scanned head
        have hFlast : F.getLast? = some (lowerChar c0) := by
          rw [← hmap, pyLower, List.getLast?_map, hsuf]
          have : ('.' :: res).getLast? = res.getLast? := by
            rw [show ('.' :: res : List Char) = ['.'] ++ res from rfl]
            rw [List.getLast?_append_of_ne_nil _ hresne]
          rw [this, hresw]
          rw [List.getLast?_reverse]
          rfl
        rw [hg] at hFlast
        exact (Option.some.injEq _ _ ▸ hFlast).symm

/-- An eligible image path never ends in the letter `'t'` — every
supported extension ends in `g`, `p`, `f` or `c` (case-insensitively),
while the error-log sidecar name ends in `".txt"`. -/
theorem lastChar_of_isImageFile (p : Path) (h : isImageFile p = true) :
    ∃ c0, p.getLast? = some c0 ∧ c0 ≠ 't' := by
  have hfmt := isImageFile_fmt p h
  rw [List.contains_eq_any_beq] at hfmt
  rw [List.any_eq_true] at hfmt
  obtain ⟨F, hF, hbeq⟩ := hfmt
  have hmap : pyLower (pathlibSuffix p) = F := eq_of_beq hbeq
  have hend : ∃ g, F.getLast? = some g ∧ 2 ≤ F.length ∧ g ≠ 't' := by
    fin_cases hF <;> exact ⟨_, rfl, by decide, by decide⟩
  obtain ⟨g, hg, hlen, hgt⟩ := hend
  obtain ⟨c0, hc0, hlow⟩ := lastChar_of_suffix_fmt p F hmap hlen g hg
  refine ⟨c0, hc0, ?_⟩
  intro hc
  rw [hc] at hlow
  rw [show lowerChar 't' = 't' from by decide] at hlow
  exact hgt hlow.symm

/-! ## HashLedger and Orchestrator: `calculate_file_hash`,
`is_file_processed`, `mark_file_processed`, `ProcessingWorker.process_file`
and `ProcessingWorker.handle_failure` (monitoring_manager.py 131-274,
548-614).

File contents are byte lists; the filesystem (monitored folders and vault
alike) is one association list from paths to contents.  The MD5 digest is
abstracted as `Env.hashFn`; every theorem below holds for an arbitrary
digest, with hash inequality as an explicit hypothesis where the source
relies on collision resistance. -/

/-- A ledger entry of `processed_files`: `{'hash': ..., 'timestamp': ...}`. -/
structure LedgerEntry where
  hash : List Nat
  timestamp : Nat
  deriving DecidableEq

/-- Ambient configuration of one processing attempt: the abstract digest,
the backup folder, the monitored folders, the minute-granularity
timestamps taken at staging (`ts1`) and at failure recording (`ts2`), the
ledger timestamp value, and the rendered error-log text. -/
structure Env where
  hashFn : List Nat → List Nat
  backupFolder : Path
  folders : List Path
  ts1 : Path
  ts2 : Path
  now : Nat
  errBytes : List Nat

/-- Mutable system state: the on-disk files (including vault artifacts),
the hash ledger `processed_files`, and the success/failure counters. -/
structure SysState where
  fs : List (Path × List Nat)
  ledger : List (Path × LedgerEntry)
  succ : Nat
  fail : Nat

/-- Outcome of one `ImageSanitizer.clean_image` call in in-place mode: on
success the cleaned bytes have replaced the file; on failure the caller
must assume the file holds arbitrary residual bytes or was removed (the
sanitizer is not required to be atomic). -/
inductive SanResult where
  | success (cleaned : List Nat)
  | failure (residual : Option (List Nat))

/-- Embedding of `MonitoringManager.calculate_file_hash` (548-558): digest the file's
bytes, `none` when the file cannot be opened. -/
def calculateFileHash (env : Env) (s : SysState) (p : Path) : Option (List Nat) :=
  (assocGet s.fs p).map env.hashFn

/-- Embedding of `MonitoringManager.is_file_processed` (583-600). -/
def isFileProcessed (env : Env) (s : SysState) (p : Path) : Bool :=
  if (assocGet s.fs p).isNone then true      -- file gone: treated as handled
  else
    match calculateFileHash env s p with
    | none => false                          -- no hash: needs processing
    | some h =>
      match assocGet s.ledger p with
      | some entry => entry.hash == h
      | none => false                        -- no record: needs processing

/-- Embedding of `MonitoringManager.mark_file_processed` (602-614): hash the file's
current bytes and write the ledger entry (flushed synchronously). -/
def markFileProcessed (env : Env) (s : SysState) (p : Path) : SysState :=
  match calculateFileHash env s p with
  | some h => { s with ledger := assocSet s.ledger p ⟨h, env.now⟩ }
  | none => s

/-- The error-log sidecar filename suffix of `handle_failure` (line 238). -/
def errLogName : Path := "_error_log.txt".toList

/-- Embedding of `ProcessingWorker.handle_failure` (220-274): when the file still
exists, copy it to a fresh dated backup path, write the
`<stem>_error_log.txt` sidecar in the same directory, and always bump the
failure counter. -/
def handleFailure (env : Env) (s : SysState) (p : Path) : SysState :=
  match assocGet s.fs p with
  | some curBytes =>
    let bp2 := createDatedBackupPath env.backupFolder env.ts2 env.folders (keysOf s.fs) p
    let el := pyJoin (dirnameOf bp2) ((splitext (basenameOf p)).1 ++ errLogName)
    { s with fs := assocSet (assocSet s.fs bp2 curBytes) el env.errBytes,
             fail := s.fail + 1 }
  | none => { s with fail := s.fail + 1 }

/-- Embedding of `ProcessingWorker.process_file` (131-189).  Returns the new state and
whether the Sanitizer (`clean_image`) was invoked.  The sanitizer's
outcome is supplied as `san`; the branches follow the source: stage a
dated backup copy, sanitize in place, then on success mark the ledger and
discard the backup, on failure restore the backup over the original
(`shutil.move`) and run `handle_failure`. -/
def processFile (env : Env) (san : SanResult) (s : SysState) (p : Path) :
    SysState × Bool :=
  match assocGet s.fs p with
  | none => (s, false)                       -- silently skip missing files
  | some _ =>
    if isFileProcessed env s p then (s, false)  -- silently skip processed files
    else
      match assocGet s.fs p with             -- re-check existence before staging
      | none => (s, false)
      | some ob =>
        let bp := createDatedBackupPath env.backupFolder env.ts1 env.folders
          (keysOf s.fs) p
        let s1 : SysState := { s with fs := assocSet s.fs bp ob }
        match san with
        | .success cleaned =>
          let s2 : SysState := { s1 with fs := assocSet s1.fs p cleaned }
          let s3 := markFileProcessed env s2 p
          let s4 : SysState :=
            match assocGet s3.fs bp with     -- if os.path.exists(backup_path)
            | some _ => { s3 with fs := assocDel s3.fs bp }
            | none => s3
          ({ s4 with succ := s4.succ + 1 }, true)
        | .failure residual =>
          let s2 : SysState := { s1 with fs :=
            match residual with
            | some rb => assocSet s1.fs p rb
            | none => assocDel s1.fs p }
          let s3 : SysState :=
            match assocGet s2.fs bp with     -- restore: shutil.move(backup, file)
            | some bb => { s2 with fs := assocSet (assocDel s2.fs bp) p bb }
            | none => s2
          (handleFailure env s3 p, true)

theorem datedBase_shape (bf ts : Path) (folders : List Path) (p : Path) :
    datedBase bf ts folders p
      = bf ++ '/' :: (ts ++ '/' :: ((datedRelRoot folders p).2
          ++ '/' :: (datedRelRoot folders p).1)) := by
  rw [datedBase, pyJoin, pyJoin, pyJoin]
  simp

theorem datedBase_shape' (bf ts : Path) (folders : List Path) (p : Path) :
    datedBase bf ts folders p
      = (pyJoin (pyJoin bf ts) (datedRelRoot folders p).2)
          ++ '/' :: (datedRelRoot folders p).1 := rfl

/-- Every dated backup path lies under the backup folder. -/
theorem cdbp_startsWith_backup (bf ts : Path) (folders : List Path)
    (occ : List Path) (p : Path) :
    pyStartsWith (createDatedBackupPath bf ts folders occ p) (bf ++ ['/']) = true := by
  rw [createDatedBackupPath, datedBase_shape]
  obtain ⟨w, hw⟩ := resolveCollision_shape occ bf _
  rw [hw]
  exact startsWith_sep_shape bf w

/-- Every dated backup path lies under its timestamp/root-name directory. -/
theorem cdbp_shape_dated (bf ts : Path) (folders : List Path)
    (occ : List Path) (p : Path) :
    ∃ w, createDatedBackupPath bf ts folders occ p
      = (pyJoin (pyJoin bf ts) (datedRelRoot folders p).2) ++ '/' :: w := by
  rw [createDatedBackupPath, datedBase_shape']
  exact resolveCollision_shape occ _ _

theorem cdbp_not_mem (bf ts : Path) (folders : List Path) (occ : List Path) (p : Path) :
    createDatedBackupPath bf ts folders occ p ∉ occ :=
  resolveCollision_not_mem occ _

theorem cdbp_getLast (bf ts : Path) (folders : List Path) (occ : List Path) (p : Path) :
    (createDatedBackupPath bf ts folders occ p).getLast? = p.getLast?
    ∨ (createDatedBackupPath bf ts folders occ p).getLast? = some '/'
    ∨ ∃ d, (createDatedBackupPath bf ts folders occ p).getLast? = some d
        ∧ isDigitCh d = true := by
  rw [createDatedBackupPath]
  rcases resolveCollision_getLast occ (datedBase bf ts folders p) with h | h
  · rcases datedBase_getLast bf ts folders p with h2 | h2
    · left; rw [h, h2]
    · right; left; rw [h, h2]
  · right; right; exact h

/-- The error-log sidecar path always ends in the letter `'t'`. -/
theorem errlog_getLast (dn stem : Path) :
    (pyJoin dn (stem ++ errLogName)).getLast? = some 't' := by
  rw [pyJoin]
  rw [List.getLast?_append_of_ne_nil _
    (by simp : ('/' :: (stem ++ errLogName) : List Char) ≠ [])]
  rw [show ('/' :: (stem ++ errLogName) : List Char)
      = ('/' :: stem) ++ errLogName from by simp]
  rw [List.getLast?_append_of_ne_nil _ (by decide : errLogName ≠ ([] : List Char))]
  decide

/-- Closed form of the success branch of `process_file`. -/
theorem processFile_success_spec (env : Env) (s : SysState) (p : Path)
    (ob cleaned : List Nat)
    (h1 : assocGet s.fs p = some ob) (h2 : isFileProcessed env s p = false)
    (hbp : createDatedBackupPath env.backupFolder env.ts1 env.folders (keysOf s.fs) p
      ≠ p) :
    (processFile env (.success cleaned) s p).2 = true
    ∧ (processFile env (.success cleaned) s p).1.fs
        = assocDel (assocSet (assocSet s.fs
            (createDatedBackupPath env.backupFolder env.ts1 env.folders (keysOf s.fs) p)
            ob) p cleaned)
            (createDatedBackupPath env.backupFolder env.ts1 env.folders (keysOf s.fs) p)
    ∧ (processFile env (.success cleaned) s p).1.ledger
        = assocSet s.ledger p ⟨env.hashFn cleaned, env.now⟩
    ∧ (processFile env (.success cleaned) s p).1.succ = s.succ + 1
    ∧ (processFile env (.success cleaned) s p).1.fail = s.fail := by
  have e1 : assocGet (assocSet (assocSet s.fs
      (createDatedBackupPath env.backupFolder env.ts1 env.folders (keysOf s.fs) p) ob)
      p cleaned) p = some cleaned := assocGet_set_eq _ _ _
  have e2 : assocGet (assocSet (assocSet s.fs
      (createDatedBackupPath env.backupFolder env.ts1 env.folders (keysOf s.fs) p) ob)
      p cleaned)
      (createDatedBackupPath env.backupFolder env.ts1 env.folders (keysOf s.fs) p)
      = some ob := by
    rw [assocGet_set_ne _ _ _ _ hbp, assocGet_set_eq]
  refine ⟨?_, ?_, ?_, ?_, ?_⟩ <;>
    simp only [processFile, h1, h2, Bool.false_eq_true, if_false,
      markFileProcessed, calculateFileHash, e1, Option.map_some', e2]

/-- Closed form of the failure branch of `process_file`: the staged
backup is moved back over the original, then `handle_failure` runs. -/
theorem processFile_failure_spec (env : Env) (s : SysState) (p : Path)
    (ob : List Nat) (residual : Option (List Nat))
    (h1 : assocGet s.fs p = some ob) (h2 : isFileProcessed env s p = false)
    (hbp : createDatedBackupPath env.backupFolder env.ts1 env.folders (keysOf s.fs) p
      ≠ p) :
    (processFile env (.failure residual) s p).2 = true
    ∧ (processFile env (.failure residual) s p).1
        = handleFailure env
            { s with fs := assocSet (assocDel
                (match residual with
                 | some rb => assocSet (assocSet s.fs
                     (createDatedBackupPath env.backupFolder env.ts1 env.folders
                       (keysOf s.fs) p) ob) p rb
                 | none => assocDel (assocSet s.fs
                     (createDatedBackupPath env.backupFolder env.ts1 env.folders
                       (keysOf s.fs) p) ob) p)
                (createDatedBackupPath env.backupFolder env.ts1 env.folders
                  (keysOf s.fs) p)) p ob } p := by
  cases residual with
  | some rb =>
    have e3 : assocGet (assocSet (assocSet s.fs
        (createDatedBackupPath env.backupFolder env.ts1 env.folders (keysOf s.fs) p) ob)
        p rb)
        (createDatedBackupPath env.backupFolder env.ts1 env.folders (keysOf s.fs) p)
        = some ob := by
      rw [assocGet_set_ne _ _ _ _ hbp, assocGet_set_eq]
    refine ⟨?_, ?_⟩ <;>
      simp only [processFile, h1, h2, Bool.false_eq_true, if_false, e3]
  | none =>
    have e3 : assocGet (assocDel (assocSet s.fs
        (createDatedBackupPath env.backupFolder env.ts1 env.folders (keysOf s.fs) p) ob)
        p)
        (createDatedBackupPath env.backupFolder env.ts1 env.folders (keysOf s.fs) p)
        = some ob := by
      rw [assocGet_del_ne _ _ _ hbp, assocGet_set_eq]
    refine ⟨?_, ?_⟩ <;>
      simp only [processFile, h1, h2, Bool.false_eq_true, if_false, e3]

/-- Every dated backup path decomposes under the backup folder. -/
theorem cdbp_shape_backup (bf ts : Path) (folders : List Path)
    (occ : List Path) (p : Path) :
    ∃ w, createDatedBackupPath bf ts folders occ p = bf ++ '/' :: w := by
  rw [createDatedBackupPath, datedBase_shape]
  exact resolveCollision_shape occ bf _

/-- C4: `is_file_processed` reports a path that no longer exists on disk
as already processed, whatever the ledger contains. -/
theorem c4_missing_file_reported_processed (env : Env) (s : SysState) (p : Path)
    (h : assocGet s.fs p = none) : isFileProcessed env s p = true := by
  rw [isFileProcessed, h]
  rfl

/-- C4 witness: a deleted path with a live ledger entry still reads as
processed. -/
theorem c4_witness :
    isFileProcessed
      ⟨fun b => b, "/bak".toList, ["/pics".toList], "202601011200".toList,
        "202601011201".toList, 7, [9]⟩
      ⟨[], [("/pics/a.png".toList, ⟨[1], 0⟩)], 0, 0⟩
      "/pics/a.png".toList = true :=
  c4_missing_file_reported_processed _ _ _ (by decide)

/-- C3: for a readable file, `is_file_processed` is true exactly when the
ledger entry's stored hash equals the fresh hash of the current bytes; and
externally overwriting the bytes after a successful processing (so that
the digests differ) makes it false again. -/
theorem c3_processed_iff_hash_match (env : Env) (s : SysState) (p : Path)
    (b : List Nat) (h1 : assocGet s.fs p = some b) :
    (isFileProcessed env s p = true
      ↔ ∃ entry, assocGet s.ledger p = some entry ∧ entry.hash = env.hashFn b)
    ∧ (∀ cleaned newBytes,
        isFileProcessed env s p = false →
        pyStartsWith p (env.backupFolder ++ ['/']) = false →
        env.hashFn newBytes ≠ env.hashFn cleaned →
        isFileProcessed env
          { (processFile env (.success cleaned) s p).1 with
            fs := assocSet (processFile env (.success cleaned) s p).1.fs p newBytes }
          p = false) := by
  constructor
  · rw [isFileProcessed, calculateFileHash, h1]
    simp only [Option.isNone_some, Bool.false_eq_true, if_false, Option.map_some']
    cases hl : assocGet s.ledger p with
    | none => simp
    | some entry =>
      constructor
      · intro hbeq
        exact ⟨entry, rfl, eq_of_beq hbeq⟩
      · rintro ⟨entry', heq, hh⟩
        have h5 := Option.some.inj heq
        rw [← h5] at hh
        show (entry.hash == env.hashFn b) = true
        rw [hh]
        simp
  · intro cleaned newBytes h2 h3 hne
    have hbps := cdbp_startsWith_backup env.backupFolder env.ts1 env.folders
      (keysOf s.fs) p
    have hbp := ne_of_startsWith_mismatch _ _ _ hbps h3
    obtain ⟨_, hfs, hld, _, _⟩ := processFile_success_spec env s p b cleaned h1 h2 hbp
    rw [isFileProcessed]
    simp only [assocGet_set_eq, Option.isNone_some, Bool.false_eq_true, if_false,
      calculateFileHash, Option.map_some', hld, assocGet_set_eq]
    have : (env.hashFn cleaned == env.hashFn newBytes) = false := by
      rw [beq_eq_false_iff_ne]
      exact fun hc => hne hc.symm
    exact this

/-- C3 witness: hash-match iff and invalidation at a concrete state. -/
theorem c3_witness :
    (isFileProcessed
        ⟨fun b => b, "/bak".toList, ["/pics".toList], "202601011200".toList,
          "202601011201".toList, 7, [9]⟩
        ⟨[("/pics/a.png".toList, [5, 5])], [], 0, 0⟩ "/pics/a.png".toList = true
      ↔ ∃ entry, assocGet ([] : List (Path × LedgerEntry)) "/pics/a.png".toList
          = some entry ∧ entry.hash = [5, 5])
    ∧ (∀ cleaned newBytes,
        isFileProcessed
          ⟨fun b => b, "/bak".toList, ["/pics".toList], "202601011200".toList,
            "202601011201".toList, 7, [9]⟩
          ⟨[("/pics/a.png".toList, [5, 5])], [], 0, 0⟩ "/pics/a.png".toList = false →
        pyStartsWith "/pics/a.png".toList ("/bak".toList ++ ['/']) = false →
        (fun b => b) newBytes ≠ (fun b => b) cleaned →
        isFileProcessed
          ⟨fun b => b, "/bak".toList, ["/pics".toList], "202601011200".toList,
            "202601011201".toList, 7, [9]⟩
          { (processFile
              ⟨fun b => b, "/bak".toList, ["/pics".toList], "202601011200".toList,
                "202601011201".toList, 7, [9]⟩
              (.success cleaned)
              ⟨[("/pics/a.png".toList, [5, 5])], [], 0, 0⟩ "/pics/a.png".toList).1 with
            fs := assocSet (processFile
              ⟨fun b => b, "/bak".toList, ["/pics".toList], "202601011200".toList,
                "202601011201".toList, 7, [9]⟩
              (.success cleaned)
              ⟨[("/pics/a.png".toList, [5, 5])], [], 0, 0⟩ "/pics/a.png".toList).1.fs
              "/pics/a.png".toList newBytes }
          "/pics/a.png".toList = false) :=
  c3_processed_iff_hash_match _ _ _ [5, 5] (by decide)

/-- C5: after a unit in which the Sanitizer succeeds on `p`, the ledger
entry for `p` stores the digest of the cleaned bytes now on disk, the
staged backup has been deleted and nothing under the backup folder
changed — so the vault holds no artifact for `p` — and the success counter
rose by exactly 1 while the failure counter is untouched. -/
theorem c5_success_commit (env : Env) (s : SysState) (p : Path)
    (ob cleaned : List Nat)
    (h1 : assocGet s.fs p = some ob)
    (h2 : isFileProcessed env s p = false)
    (h3 : pyStartsWith p (env.backupFolder ++ ['/']) = false) :
    (processFile env (.success cleaned) s p).2 = true
    ∧ assocGet (processFile env (.success cleaned) s p).1.fs p = some cleaned
    ∧ assocGet (processFile env (.success cleaned) s p).1.ledger p
        = some ⟨env.hashFn cleaned, env.now⟩
    ∧ assocGet (processFile env (.success cleaned) s p).1.fs
        (createDatedBackupPath env.backupFolder env.ts1 env.folders (keysOf s.fs) p)
        = none
    ∧ (∀ q, pyStartsWith q (env.backupFolder ++ ['/']) = true →
        assocGet (processFile env (.success cleaned) s p).1.fs q = assocGet s.fs q)
    ∧ (processFile env (.success cleaned) s p).1.succ = s.succ + 1
    ∧ (processFile env (.success cleaned) s p).1.fail = s.fail := by
  have hbps := cdbp_startsWith_backup env.backupFolder env.ts1 env.folders
    (keysOf s.fs) p
  have hbp := ne_of_startsWith_mismatch _ _ _ hbps h3
  obtain ⟨hc, hfs, hld, hsucc, hfail⟩ :=
    processFile_success_spec env s p ob cleaned h1 h2 hbp
  refine ⟨hc, ?_, ?_, ?_, ?_, hsucc, hfail⟩
  · rw [hfs, assocGet_del_ne _ _ _ (Ne.symm hbp), assocGet_set_eq]
  · rw [hld, assocGet_set_eq]
  · rw [hfs, assocGet_del_eq]
  · intro q hq
    have hqp : q ≠ p := ne_of_startsWith_mismatch q p _ hq h3
    by_cases hqbp : q = createDatedBackupPath env.backupFolder env.ts1 env.folders
        (keysOf s.fs) p
    · subst hqbp
      rw [hfs, assocGet_del_eq,
        assocGet_eq_none_of_not_mem_keys s.fs _
          (cdbp_not_mem env.backupFolder env.ts1 env.folders (keysOf s.fs) p)]
    · rw [hfs, assocGet_del_ne _ _ _ hqbp, assocGet_set_ne _ _ _ _ hqp,
        assocGet_set_ne _ _ _ _ hqbp]

/-- C5 witness at a concrete successful unit. -/
theorem c5_witness :
    ((processFile
        ⟨fun b => b, "/bak".toList, ["/pics".toList], "202601011200".toList,
          "202601011201".toList, 7, [9]⟩
        (.success [4, 4])
        ⟨[("/pics/a.png".toList, [5, 5])], [], 0, 0⟩ "/pics/a.png".toList).2 = true
    ∧ assocGet (processFile
        ⟨fun b => b, "/bak".toList, ["/pics".toList], "202601011200".toList,
          "202601011201".toList, 7, [9]⟩
        (.success [4, 4])
        ⟨[("/pics/a.png".toList, [5, 5])], [], 0, 0⟩ "/pics/a.png".toList).1.fs
        "/pics/a.png".toList = some [4, 4]
    ∧ assocGet (processFile
        ⟨fun b => b, "/bak".toList, ["/pics".toList], "202601011200".toList,
          "202601011201".toList, 7, [9]⟩
        (.success [4, 4])
        ⟨[("/pics/a.png".toList, [5, 5])], [], 0, 0⟩ "/pics/a.png".toList).1.ledger
        "/pics/a.png".toList = some ⟨(fun b => b) [4, 4], 7⟩
    ∧ assocGet (processFile
        ⟨fun b => b, "/bak".toList, ["/pics".toList], "202601011200".toList,
          "202601011201".toList, 7, [9]⟩
        (.success [4, 4])
        ⟨[("/pics/a.png".toList, [5, 5])], [], 0, 0⟩ "/pics/a.png".toList).1.fs
        (createDatedBackupPath "/bak".toList "202601011200".toList ["/pics".toList]
          (keysOf [("/pics/a.png".toList, ([5, 5] : List Nat))]) "/pics/a.png".toList)
        = none
    ∧ (∀ q, pyStartsWith q ("/bak".toList ++ ['/']) = true →
        assocGet (processFile
          ⟨fun b => b, "/bak".toList, ["/pics".toList], "202601011200".toList,
            "202601011201".toList, 7, [9]⟩
          (.success [4, 4])
          ⟨[("/pics/a.png".toList, [5, 5])], [], 0, 0⟩ "/pics/a.png".toList).1.fs q
          = assocGet [("/pics/a.png".toList, [5, 5])] q)
    ∧ (processFile
        ⟨fun b => b, "/bak".toList, ["/pics".toList], "202601011200".toList,
          "202601011201".toList, 7, [9]⟩
        (.success [4, 4])
        ⟨[("/pics/a.png".toList, [5, 5])], [], 0, 0⟩ "/pics/a.png".toList).1.succ = 0 + 1
    ∧ (processFile
        ⟨fun b => b, "/bak".toList, ["/pics".toList], "202601011200".toList,
          "202601011201".toList, 7, [9]⟩
        (.success [4, 4])
        ⟨[("/pics/a.png".toList, [5, 5])], [], 0, 0⟩ "/pics/a.png".toList).1.fail = 0) :=
  c5_success_commit _ _ _ [5, 5] [4, 4] (by decide) (by decide) (by decide)

/-- A processing attempt on an existing, already-processed file exits
before invoking the Sanitizer, leaving everything unchanged. -/
theorem processFile_skip (env : Env) (san : SanResult) (s : SysState) (p : Path)
    (v : List Nat) (hfsp : assocGet s.fs p = some v)
    (hproc : isFileProcessed env s p = true) :
    processFile env san s p = (s, false) := by
  simp only [processFile, hfsp, hproc, if_true]

/-- C2: if a first attempt on `p` succeeds, then — with the file's content
unchanged in between — the second attempt's `is_file_processed` check
returns true and the second attempt exits before invoking the Sanitizer,
leaving the state untouched; the Sanitizer ran exactly once across the two
attempts. -/
theorem c2_second_attempt_skips (env : Env) (s : SysState) (p : Path)
    (ob cleaned : List Nat) (san2 : SanResult)
    (h1 : assocGet s.fs p = some ob)
    (h2 : isFileProcessed env s p = false)
    (h3 : pyStartsWith p (env.backupFolder ++ ['/']) = false) :
    (processFile env (.success cleaned) s p).2 = true
    ∧ isFileProcessed env (processFile env (.success cleaned) s p).1 p = true
    ∧ (processFile env san2 (processFile env (.success cleaned) s p).1 p).2 = false
    ∧ (processFile env san2 (processFile env (.success cleaned) s p).1 p).1
        = (processFile env (.success cleaned) s p).1 := by
  have hbps := cdbp_startsWith_backup env.backupFolder env.ts1 env.folders
    (keysOf s.fs) p
  have hbp := ne_of_startsWith_mismatch _ _ _ hbps h3
  obtain ⟨hc, hfs, hld, _, _⟩ := processFile_success_spec env s p ob cleaned h1 h2 hbp
  have hfsp : assocGet (processFile env (.success cleaned) s p).1.fs p
      = some cleaned := by
    rw [hfs, assocGet_del_ne _ _ _ (Ne.symm hbp), assocGet_set_eq]
  have hldp : assocGet (processFile env (.success cleaned) s p).1.ledger p
      = some ⟨env.hashFn cleaned, env.now⟩ := by
    rw [hld, assocGet_set_eq]
  have hproc : isFileProcessed env (processFile env (.success cleaned) s p).1 p
      = true := by
    rw [isFileProcessed, calculateFileHash, hfsp, hldp]
    simp
  have hskip := processFile_skip env san2 _ p cleaned hfsp hproc
  exact ⟨hc, hproc, by rw [hskip], by rw [hskip]⟩

/-- C2 witness at a concrete pair of attempts. -/
theorem c2_witness :
    ((processFile
        ⟨fun b => b, "/bak".toList, ["/pics".toList], "202601011200".toList,
          "202601011201".toList, 7, [9]⟩
        (.success [4, 4])
        ⟨[("/pics/a.png".toList, [5, 5])], [], 0, 0⟩ "/pics/a.png".toList).2 = true
    ∧ isFileProcessed
        ⟨fun b => b, "/bak".toList, ["/pics".toList], "202601011200".toList,
          "202601011201".toList, 7, [9]⟩
        (processFile
          ⟨fun b => b, "/bak".toList, ["/pics".toList], "202601011200".toList,
            "202601011201".toList, 7, [9]⟩
          (.success [4, 4])
          ⟨[("/pics/a.png".toList, [5, 5])], [], 0, 0⟩ "/pics/a.png".toList).1
        "/pics/a.png".toList = true
    ∧ (processFile
        ⟨fun b => b, "/bak".toList, ["/pics".toList], "202601011200".toList,
          "202601011201".toList, 7, [9]⟩
        (.failure none)
        (processFile
          ⟨fun b => b, "/bak".toList, ["/pics".toList], "202601011200".toList,
            "202601011201".toList, 7, [9]⟩
          (.success [4, 4])
          ⟨[("/pics/a.png".toList, [5, 5])], [], 0, 0⟩ "/pics/a.png".toList).1
        "/pics/a.png".toList).2 = false
    ∧ (processFile
        ⟨fun b => b, "/bak".toList, ["/pics".toList], "202601011200".toList,
          "202601011201".toList, 7, [9]⟩
        (.failure none)
        (processFile
          ⟨fun b => b, "/bak".toList, ["/pics".toList], "202601011200".toList,
            "202601011201".toList, 7, [9]⟩
          (.success [4, 4])
          ⟨[("/pics/a.png".toList, [5, 5])], [], 0, 0⟩ "/pics/a.png".toList).1
        "/pics/a.png".toList).1
      = (processFile
          ⟨fun b => b, "/bak".toList, ["/pics".toList], "202601011200".toList,
            "202601011201".toList, 7, [9]⟩
          (.success [4, 4])
          ⟨[("/pics/a.png".toList, [5, 5])], [], 0, 0⟩ "/pics/a.png".toList).1) :=
  c2_second_attempt_skips _ _ _ [5, 5] [4, 4] (.failure none)
    (by decide) (by decide) (by decide)

/-- Closed form of `handle_failure` when the file still exists. -/
theorem handleFailure_spec (env : Env) (s : SysState) (p : Path) (cb : List Nat)
    (h : assocGet s.fs p = some cb) :
    handleFailure env s p
      = { s with
          fs := assocSet (assocSet s.fs
              (createDatedBackupPath env.backupFolder env.ts2 env.folders
                (keysOf s.fs) p) cb)
            (pyJoin (dirnameOf (createDatedBackupPath env.backupFolder env.ts2
                env.folders (keysOf s.fs) p))
              ((splitext (basenameOf p)).1 ++ errLogName)) env.errBytes,
          fail := s.fail + 1 } := by
  simp only [handleFailure, h]

/-- C1: when the Sanitizer reports failure on `p`, the file's bytes on
disk after the attempt are byte-identical to the bytes before it
(restored from the staged backup), the vault retains one backup copy of
those bytes plus one `<stem>_error_log.txt` sidecar, both under the dated
timestamp/root-name directory, every other vault path is untouched, and
the failure counter rose by exactly 1 while the success counter and the
ledger are unchanged. -/
theorem c1_failure_restores_and_records (env : Env) (s : SysState) (p : Path)
    (ob : List Nat) (residual : Option (List Nat))
    (h1 : assocGet s.fs p = some ob)
    (h2 : isFileProcessed env s p = false)
    (h3 : pyStartsWith p (env.backupFolder ++ ['/']) = false)
    (h4 : isImageFile p = true) :
    (processFile env (.failure residual) s p).2 = true
    ∧ assocGet (processFile env (.failure residual) s p).1.fs p = some ob
    ∧ (processFile env (.failure residual) s p).1.fail = s.fail + 1
    ∧ (processFile env (.failure residual) s p).1.succ = s.succ
    ∧ (processFile env (.failure residual) s p).1.ledger = s.ledger
    ∧ ∃ bp2 el,
        bp2 ≠ el
        ∧ el = pyJoin (dirnameOf bp2) ((splitext (basenameOf p)).1 ++ errLogName)
        ∧ pyStartsWith bp2
            ((pyJoin (pyJoin env.backupFolder env.ts2)
              (datedRelRoot env.folders p).2) ++ ['/']) = true
        ∧ pyStartsWith el
            ((pyJoin (pyJoin env.backupFolder env.ts2)
              (datedRelRoot env.folders p).2) ++ ['/']) = true
        ∧ assocGet (processFile env (.failure residual) s p).1.fs bp2 = some ob
        ∧ assocGet (processFile env (.failure residual) s p).1.fs el
            = some env.errBytes
        ∧ (∀ q, pyStartsWith q (env.backupFolder ++ ['/']) = true →
            q ≠ bp2 → q ≠ el →
            assocGet (processFile env (.failure residual) s p).1.fs q
              = assocGet s.fs q) := by
  have hbps1 := cdbp_startsWith_backup env.backupFolder env.ts1 env.folders
    (keysOf s.fs) p
  have hbp1 := ne_of_startsWith_mismatch _ _ _ hbps1 h3
  obtain ⟨hc, hstate⟩ := processFile_failure_spec env s p ob residual h1 h2 hbp1
  set BP1 := createDatedBackupPath env.backupFolder env.ts1 env.folders
    (keysOf s.fs) p with hB1
  set M := (match residual with
    | some rb => assocSet (assocSet s.fs BP1 ob) p rb
    | none => assocDel (assocSet s.fs BP1 ob) p) with hM
  set FS := assocSet (assocDel M BP1) p ob with hFS
  have hFp : assocGet FS p = some ob := by
    rw [hFS]
    exact assocGet_set_eq _ _ _
  have hhf := handleFailure_spec env { s with fs := FS } p ob hFp
  dsimp only at hhf
  have hfinal := hstate.trans hhf
  set BP2 := createDatedBackupPath env.backupFolder env.ts2 env.folders
    (keysOf FS) p with hB2
  set EL := pyJoin (dirnameOf BP2) ((splitext (basenameOf p)).1 ++ errLogName)
    with hELd
  have hbps2 := cdbp_startsWith_backup env.backupFolder env.ts2 env.folders
    (keysOf FS) p
  rw [← hB2] at hbps2
  have hbp2p : BP2 ≠ p := ne_of_startsWith_mismatch _ _ _ hbps2 h3
  obtain ⟨w2, hw2⟩ := cdbp_shape_dated env.backupFolder env.ts2 env.folders
    (keysOf FS) p
  rw [← hB2] at hw2
  have hbp2d : pyStartsWith BP2
      ((pyJoin (pyJoin env.backupFolder env.ts2)
        (datedRelRoot env.folders p).2) ++ ['/']) = true := by
    rw [hw2]
    exact startsWith_sep_shape _ _
  have held : pyStartsWith EL
      ((pyJoin (pyJoin env.backupFolder env.ts2)
        (datedRelRoot env.folders p).2) ++ ['/']) = true := by
    rw [hELd, hw2]
    exact join_dirname_startsWith _ _ _
  obtain ⟨wb, hwb⟩ := cdbp_shape_backup env.backupFolder env.ts2 env.folders
    (keysOf FS) p
  rw [← hB2] at hwb
  have helbf : pyStartsWith EL (env.backupFolder ++ ['/']) = true := by
    rw [hELd, hwb]
    exact join_dirname_startsWith _ _ _
  have help : EL ≠ p := ne_of_startsWith_mismatch _ _ _ helbf h3
  have hellast : EL.getLast? = some 't' := by
    rw [hELd]
    exact errlog_getLast _ _
  have hbp2last : BP2.getLast? ≠ some 't' := by
    have hcl := cdbp_getLast env.backupFolder env.ts2 env.folders (keysOf FS) p
    rw [← hB2] at hcl
    rcases hcl with hA | hA | ⟨d, hd, hdig⟩
    · obtain ⟨c0, hc0, hct⟩ := lastChar_of_isImageFile p h4
      rw [hA, hc0]
      intro hcon
      exact hct (Option.some.inj hcon)
    · rw [hA]
      intro hcon
      exact absurd (Option.some.inj hcon) (by decide)
    · rw [hd]
      intro hcon
      rw [Option.some.inj hcon] at hdig
      exact absurd hdig (by decide)
  have hne2 : BP2 ≠ EL := by
    intro hcc
    rw [hcc, hellast] at hbp2last
    exact hbp2last rfl
  have hBP1mem : assocGet s.fs BP1 = none :=
    assocGet_eq_none_of_not_mem_keys s.fs _
      (cdbp_not_mem env.backupFolder env.ts1 env.folders (keysOf s.fs) p)
  have hMget : ∀ q, q ≠ p → q ≠ BP1 → assocGet M q = assocGet s.fs q := by
    intro q hqp hqb
    rw [hM]
    cases residual with
    | some rb => rw [assocGet_set_ne _ _ _ _ hqp, assocGet_set_ne _ _ _ _ hqb]
    | none => rw [assocGet_del_ne _ _ _ hqp, assocGet_set_ne _ _ _ _ hqb]
  have hFget : ∀ q, q ≠ p → assocGet FS q = assocGet s.fs q := by
    intro q hqp
    rw [hFS, assocGet_set_ne _ _ _ _ hqp]
    by_cases hqb : q = BP1
    · subst hqb
      rw [assocGet_del_eq, hBP1mem]
    · rw [assocGet_del_ne _ _ _ hqb, hMget q hqp hqb]
  refine ⟨hc, ?_, ?_, ?_, ?_, ?_⟩
  · rw [hfinal]
    show assocGet (assocSet (assocSet FS BP2 ob) EL env.errBytes) p = some ob
    rw [assocGet_set_ne _ _ _ _ (Ne.symm help),
      assocGet_set_ne _ _ _ _ (Ne.symm hbp2p), hFp]
  · rw [hfinal]
  · rw [hfinal]
  · rw [hfinal]
  · refine ⟨BP2, EL, hne2, hELd, hbp2d, held, ?_, ?_, ?_⟩
    · rw [hfinal]
      show assocGet (assocSet (assocSet FS BP2 ob) EL env.errBytes) BP2 = some ob
      rw [assocGet_set_ne _ _ _ _ hne2, assocGet_set_eq]
    · rw [hfinal]
      show assocGet (assocSet (assocSet FS BP2 ob) EL env.errBytes) EL
        = some env.errBytes
      rw [assocGet_set_eq]
    · intro q hq hqbp2 hqel
      have hqp : q ≠ p := ne_of_startsWith_mismatch q p _ hq h3
      rw [hfinal]
      show assocGet (assocSet (assocSet FS BP2 ob) EL env.errBytes) q
        = assocGet s.fs q
      rw [assocGet_set_ne _ _ _ _ hqel, assocGet_set_ne _ _ _ _ hqbp2,
        hFget q hqp]

/-- C1 witness at a concrete failing unit. -/
theorem c1_witness :
    ((processFile
        ⟨fun b => b, "/bak".toList, ["/pics".toList], "202601011200".toList,
          "202601011201".toList, 7, [9]⟩
        (.failure none)
        ⟨[("/pics/a.png".toList, [5, 5])], [], 0, 0⟩ "/pics/a.png".toList).2 = true
    ∧ assocGet (processFile
        ⟨fun b => b, "/bak".toList, ["/pics".toList], "202601011200".toList,
          "202601011201".toList, 7, [9]⟩
        (.failure none)
        ⟨[("/pics/a.png".toList, [5, 5])], [], 0, 0⟩ "/pics/a.png".toList).1.fs
        "/pics/a.png".toList = some [5, 5]
    ∧ (processFile
        ⟨fun b => b, "/bak".toList, ["/pics".toList], "202601011200".toList,
          "202601011201".toList, 7, [9]⟩
        (.failure none)
        ⟨[("/pics/a.png".toList, [5, 5])], [], 0, 0⟩ "/pics/a.png".toList).1.fail
        = 0 + 1
    ∧ (processFile
        ⟨fun b => b, "/bak".toList, ["/pics".toList], "202601011200".toList,
          "202601011201".toList, 7, [9]⟩
        (.failure none)
        ⟨[("/pics/a.png".toList, [5, 5])], [], 0, 0⟩ "/pics/a.png".toList).1.succ = 0
    ∧ (processFile
        ⟨fun b => b, "/bak".toList, ["/pics".toList], "202601011200".toList,
          "202601011201".toList, 7, [9]⟩
        (.failure none)
        ⟨[("/pics/a.png".toList, [5, 5])], [], 0, 0⟩ "/pics/a.png".toList).1.ledger
        = []
    ∧ ∃ bp2 el,
        bp2 ≠ el
        ∧ el = pyJoin (dirnameOf bp2)
            ((splitext (basenameOf "/pics/a.png".toList)).1 ++ errLogName)
        ∧ pyStartsWith bp2
            ((pyJoin (pyJoin "/bak".toList "202601011201".toList)
              (datedRelRoot ["/pics".toList] "/pics/a.png".toList).2) ++ ['/']) = true
        ∧ pyStartsWith el
            ((pyJoin (pyJoin "/bak".toList "202601011201".toList)
              (datedRelRoot ["/pics".toList] "/pics/a.png".toList).2) ++ ['/']) = true
        ∧ assocGet (processFile
            ⟨fun b => b, "/bak".toList, ["/pics".toList], "202601011200".toList,
              "202601011201".toList, 7, [9]⟩
            (.failure none)
            ⟨[("/pics/a.png".toList, [5, 5])], [], 0, 0⟩ "/pics/a.png".toList).1.fs
            bp2 = some [5, 5]
        ∧ assocGet (processFile
            ⟨fun b => b, "/bak".toList, ["/pics".toList], "202601011200".toList,
              "202601011201".toList, 7, [9]⟩
            (.failure none)
            ⟨[("/pics/a.png".toList, [5, 5])], [], 0, 0⟩ "/pics/a.png".toList).1.fs
            el = some [9]
        ∧ (∀ q, pyStartsWith q ("/bak".toList ++ ['/']) = true →
            q ≠ bp2 → q ≠ el →
            assocGet (processFile
              ⟨fun b => b, "/bak".toList, ["/pics".toList], "202601011200".toList,
                "202601011201".toList, 7, [9]⟩
              (.failure none)
              ⟨[("/pics/a.png".toList, [5, 5])], [], 0, 0⟩
              "/pics/a.png".toList).1.fs q
              = assocGet [("/pics/a.png".toList, [5, 5])] q)) :=
  c1_failure_restores_and_records _ _ _ [5, 5] none
    (by decide) (by decide) (by decide) (by decide)

/-! ## StabilityGate: `ImageFileHandler.wait_for_file_ready`
(monitoring_manager.py 94-119) -/

/-- One polling iteration's observations: whether the file exists, its
size, and whether opening it for read succeeds. -/
structure Obs where
  present : Bool
  size : Nat
  openable : Bool
  deriving DecidableEq

/-- Embedding of `ImageFileHandler.wait_for_file_ready` over a trace of observations
(one per loop iteration; an exhausted trace is the `max_wait` budget
elapsing).  The Python function body contains no `return` statement: the
`break` on stability and the timeout both fall off the end of the
function, so the call always evaluates to `None`, modelled as
`(none : Option Bool)` on every exit path. -/
def waitForFileReady : List Obs → Int → Option Bool
  | [], _ => none                       -- budget elapsed: implicit None
  | o :: rest, lastSize =>
    if !o.present then waitForFileReady rest lastSize   -- vanished: sleep, retry
    else if ((o.size : Int) == lastSize && decide (0 < o.size)) then
      if o.openable then none           -- stable and readable: break, then None
      else waitForFileReady rest (o.size : Int)
    else waitForFileReady rest (o.size : Int)

/-- Which branch ended the polling loop (instrumentation of the same
recursion, to state when the loop stops early). -/
inductive WaitExit where
  | stable
  | timeout
  deriving DecidableEq

/-- The exit kind of the `wait_for_file_ready` loop on a trace. -/
def waitExitKind : List Obs → Int → WaitExit
  | [], _ => .timeout
  | o :: rest, lastSize =>
    if !o.present then waitExitKind rest lastSize
    else if ((o.size : Int) == lastSize && decide (0 < o.size)) then
      if o.openable then .stable
      else waitExitKind rest (o.size : Int)
    else waitExitKind rest (o.size : Int)

/-- The `last_size` value the loop carries after a list of polls. -/
def lastSeenSize (last : Int) (pre : List Obs) : Int :=
  pre.foldl (fun acc o => if o.present then (o.size : Int) else acc) last

/-- C8 counterexample: on a trace that reaches stability and on a trace
that times out, `wait_for_file_ready` evaluates to the same value `None` —
it never returns the boolean the claim describes, even though the two
runs exit through different branches. -/
theorem c8_counterexample :
    waitForFileReady [⟨true, 5, true⟩, ⟨true, 5, true⟩] (-1) = none
    ∧ waitForFileReady [] (-1) = none
    ∧ waitExitKind [⟨true, 5, true⟩, ⟨true, 5, true⟩] (-1) = WaitExit.stable
    ∧ waitExitKind [] (-1) = WaitExit.timeout := by
  decide

/-- C8 (amended): `wait_for_file_ready` returns `None` on every trace —
readiness is not signalled through the return value — and the loop stops
early only when some poll observes the file present, with the same
non-zero size as the previously recorded size, and openable for read;
on timeout or a vanished file it simply returns after the budget. -/
theorem c8_wait_returns_none_stops_on_stability (obs : List Obs) (last : Int) :
    waitForFileReady obs last = none
    ∧ (waitExitKind obs last = WaitExit.stable →
        ∃ pre o rest, obs = pre ++ o :: rest
          ∧ o.present = true ∧ 0 < o.size ∧ o.openable = true
          ∧ (o.size : Int) = lastSeenSize last pre) := by
  induction obs generalizing last with
  | nil =>
    refine ⟨rfl, ?_⟩
    intro h
    simp [waitExitKind] at h
  | cons o rest ih =>
    constructor
    · rw [waitForFileReady]
      by_cases hp : (!o.present) = true
      · rw [if_pos hp]
        exact (ih _).1
      · rw [if_neg hp]
        by_cases hs : ((o.size : Int) == last && decide (0 < o.size)) = true
        · rw [if_pos hs]
          by_cases ho : o.openable = true
          · rw [if_pos ho]
          · rw [if_neg ho]
            exact (ih _).1
        · rw [if_neg hs]
          exact (ih _).1
    · intro h
      rw [waitExitKind] at h
      by_cases hp : (!o.present) = true
      · rw [if_pos hp] at h
        obtain ⟨pre, o', rest', heq, ho1, ho2, ho3, ho4⟩ := (ih last).2 h
        refine ⟨o :: pre, o', rest', by simp [heq], ho1, ho2, ho3, ?_⟩
        have hopf : o.present = false := by simpa using hp
        rw [lastSeenSize, List.foldl_cons]
        simp only [hopf, Bool.false_eq_true, if_false]
        exact ho4
      · rw [if_neg hp] at h
        have hpres : o.present = true := by
          rw [Bool.not_eq_true] at hp
          simpa using hp
        by_cases hs : ((o.size : Int) == last && decide (0 < o.size)) = true
        · rw [if_pos hs] at h
          have hs' := hs
          rw [Bool.and_eq_true] at hs'
          obtain ⟨hsz, hpos⟩ := hs'
          by_cases ho : o.openable = true
          · refine ⟨[], o, rest, rfl, hpres, by simpa using hpos, ho, ?_⟩
            rw [lastSeenSize, List.foldl_nil]
            exact eq_of_beq hsz
          · rw [if_neg ho] at h
            obtain ⟨pre, o', rest', heq, ho1, ho2, ho3, ho4⟩ := (ih _).2 h
            refine ⟨o :: pre, o', rest', by simp [heq], ho1, ho2, ho3, ?_⟩
            rw [lastSeenSize, List.foldl_cons]
            simp only [hpres, if_true]
            exact ho4
        · rw [if_neg hs] at h
          obtain ⟨pre, o', rest', heq, ho1, ho2, ho3, ho4⟩ := (ih _).2 h
          refine ⟨o :: pre, o', rest', by simp [heq], ho1, ho2, ho3, ?_⟩
          rw [lastSeenSize, List.foldl_cons]
          simp only [hpres, if_true]
          exact ho4

/-- C8 amended witness at a concrete stable trace. -/
theorem c8_witness :
    waitForFileReady [⟨true, 5, false⟩, ⟨true, 5, true⟩] (-1) = none
    ∧ (waitExitKind [⟨true, 5, false⟩, ⟨true, 5, true⟩] (-1) = WaitExit.stable →
        ∃ pre o rest,
          ([⟨true, 5, false⟩, ⟨true, 5, true⟩] : List Obs) = pre ++ o :: rest
          ∧ o.present = true ∧ 0 < o.size ∧ o.openable = true
          ∧ (o.size : Int) = lastSeenSize (-1) pre) :=
  c8_wait_returns_none_stops_on_stability [⟨true, 5, false⟩, ⟨true, 5, true⟩] (-1)

/-! ## ProcessingOrchestrator: `MonitoringManager.queue_file_for_processing`
(monitoring_manager.py 355-357, 475-508) -/

/-- The relevant manager state: the running flag, the liveness flags of
`processing_threads`, and the `processed` counter. -/
structure MgrState where
  isRunning : Bool
  threads : List Bool
  processedCount : Nat
  deriving DecidableEq

/-- Instrumented outcome of a submission. -/
inductive QueueOutcome where
  | notRunning
  | dropped
  | started
  deriving DecidableEq

/-- Embedding of `MonitoringManager.max_concurrent_threads` (line 357). -/
def maxConcurrentThreads : Nat := 3

/-- Embedding of `MonitoringManager.cleanup_finished_threads` (506-508): keep only the
live threads. -/
def cleanupFinishedThreads (ts : List Bool) : List Bool := ts.filter id

/-- Embedding of `MonitoringManager.queue_file_for_processing` (475-504): return when
not running; otherwise prune dead threads, drop the submission with a log
notice when the live count has reached the maximum, else start a worker
thread and bump the processed counter. -/
def queueFileForProcessing (s : MgrState) : MgrState × QueueOutcome :=
  if !s.isRunning then (s, .notRunning)
  else
    let ts := cleanupFinishedThreads s.threads
    if maxConcurrentThreads ≤ ts.length then
      ({ s with threads := ts }, .dropped)
    else
      ({ s with threads := ts ++ [true], processedCount := s.processedCount + 1 },
        .started)

/-- C9: while running, a submission arriving when the number of live
worker threads already equals the fixed maximum 3 is dropped — no worker
thread is created and the processed counter is untouched — and the worker
count never exceeds 3, so at most 3 sanitization workers are active at
any instant of the sequential model. -/
theorem c9_pool_drops_when_full (s : MgrState) (hrun : s.isRunning = true) :
    ((cleanupFinishedThreads s.threads).length = 3 →
      (queueFileForProcessing s).2 = QueueOutcome.dropped
      ∧ (queueFileForProcessing s).1.threads = cleanupFinishedThreads s.threads
      ∧ (queueFileForProcessing s).1.processedCount = s.processedCount)
    ∧ (s.threads.length ≤ 3 → (queueFileForProcessing s).1.threads.length ≤ 3) := by
  have hrun' : (!s.isRunning) = false := by rw [hrun]; rfl
  have hcl : (cleanupFinishedThreads s.threads).length ≤ s.threads.length :=
    List.length_filter_le _ _
  constructor
  · intro h3
    rw [queueFileForProcessing, hrun']
    simp only [Bool.false_eq_true, if_false]
    rw [if_pos (by rw [h3]; decide)]
    exact ⟨rfl, rfl, rfl⟩
  · intro hlen
    rw [queueFileForProcessing, hrun']
    simp only [Bool.false_eq_true, if_false]
    by_cases hle : maxConcurrentThreads ≤ (cleanupFinishedThreads s.threads).length
    · rw [if_pos hle]
      exact le_trans hcl hlen
    · rw [if_neg hle]
      rw [maxConcurrentThreads] at hle
      push_neg at hle
      simp only [List.length_append, List.length_cons, List.length_nil]
      omega

/-- C9 witness at a saturated pool. -/
theorem c9_witness :
    ((cleanupFinishedThreads [true, true, true]).length = 3 →
      (queueFileForProcessing ⟨true, [true, true, true], 5⟩).2
          = QueueOutcome.dropped
      ∧ (queueFileForProcessing ⟨true, [true, true, true], 5⟩).1.threads
          = cleanupFinishedThreads [true, true, true]
      ∧ (queueFileForProcessing ⟨true, [true, true, true], 5⟩).1.processedCount
          = 5)
    ∧ (([true, true, true] : List Bool).length ≤ 3 →
        (queueFileForProcessing ⟨true, [true, true, true], 5⟩).1.threads.length
          ≤ 3) :=
  c9_pool_drops_when_full ⟨true, [true, true, true], 5⟩ (by decide)

end Guardian
